import Mathlib

/-!
Verification development for the SECOORA assets map scripts
(`data_frame2gis.py`, `hfradar_geojson.py`, `stations_geojson.py`).

The scripts turn spreadsheet rows describing ocean-observation assets into
GeoJSON feature collections (point features and, for HF-radar rows, coverage
wedge polygons) and serialize the collections to a JSON document and to
shapefile records.

The embedding below models:
- strings with the byte-wise (code point) order that Python uses to sort
  dictionary keys and groupby keys;
- spreadsheet numbers as exact fractions (`Frac`, an unreduced pair of
  integers) so that all arithmetic in the scripts is represented exactly and
  remains kernel-computable;
- JSON documents as a mutual inductive (`JValue`, `JArr`, `JObj`), with a
  printer mirroring `json.dump(obj, sort_keys=True, indent=2,
  separators=(",", ": "))` and a JSON reader used to state the round-trip
  property;
- the feature builders, the GeoJSON writer and the shapefile writers of the
  three scripts.

Third-party behavior that the scripts rely on (the matplotlib `Wedge` patch
and the fiona shapefile driver) is not part of the repository; those parts
are modelled from the specification and are marked as such in their doc
comments.
-/

/-! ### Strings ordered by code points -/

/-- Lexicographic strict order on char lists, comparing code points. This is
the order Python uses when sorting strings. -/
def charsLt : List Char → List Char → Bool
  | [], [] => false
  | [], _ :: _ => true
  | _ :: _, [] => false
  | a :: as, b :: bs =>
    if a.toNat < b.toNat then true
    else if b.toNat < a.toNat then false
    else charsLt as bs

/-- Strict order on strings by code points, as Python compares strings. -/
def strLt (a b : String) : Bool := charsLt a.data b.data

theorem charsLt_irrefl : ∀ l : List Char, charsLt l l = false := by
  intro l
  induction l with
  | nil => rfl
  | cons a as ih => simp [charsLt, ih]

theorem charsLt_asymm : ∀ l m : List Char,
    charsLt l m = true → charsLt m l = false := by
  intro l
  induction l with
  | nil =>
    intro m h
    cases m with
    | nil => simp [charsLt] at h
    | cons b bs => simp [charsLt]
  | cons a as ih =>
    intro m h
    cases m with
    | nil => simp [charsLt] at h
    | cons b bs =>
      simp only [charsLt] at h ⊢
      by_cases hab : a.toNat < b.toNat
      · have hba : ¬ b.toNat < a.toNat := by omega
        simp [hab, hba]
      · by_cases hba : b.toNat < a.toNat
        · simp [hab, hba] at h
        · simp only [hab, hba, if_neg, if_false] at h ⊢
          simp [ih bs h]

theorem charsLt_trans : ∀ l m n : List Char,
    charsLt l m = true → charsLt m n = true → charsLt l n = true := by
  intro l
  induction l with
  | nil =>
    intro m n hlm hmn
    cases m with
    | nil => simp [charsLt] at hlm
    | cons b bs =>
      cases n with
      | nil => simp [charsLt] at hmn
      | cons c cs => simp [charsLt]
  | cons a as ih =>
    intro m n hlm hmn
    cases m with
    | nil => simp [charsLt] at hlm
    | cons b bs =>
      cases n with
      | nil => simp [charsLt] at hmn
      | cons c cs =>
        simp only [charsLt] at hlm hmn ⊢
        by_cases hab : a.toNat < b.toNat
        · by_cases hbc : b.toNat < c.toNat
          · have : a.toNat < c.toNat := by omega
            simp [this]
          · by_cases hcb : c.toNat < b.toNat
            · simp [hab, hbc, hcb] at hmn
            · have hbceq : b.toNat = c.toNat := by omega
              have : a.toNat < c.toNat := by omega
              simp [this]
        · by_cases hba : b.toNat < a.toNat
          · simp [hab, hba] at hlm
          · have habeq : a.toNat = b.toNat := by omega
            by_cases hbc : b.toNat < c.toNat
            · have : a.toNat < c.toNat := by omega
              simp [this]
            · by_cases hcb : c.toNat < b.toNat
              · simp [hbc, hcb] at hmn
              · have hac : ¬ a.toNat < c.toNat := by omega
                have hca : ¬ c.toNat < a.toNat := by omega
                simp only [hab, hba, if_neg, if_false] at hlm
                simp only [hbc, hcb, if_neg, if_false] at hmn
                simp [hac, hca, ih bs cs hlm hmn]

theorem charsLt_total_eq : ∀ l m : List Char,
    charsLt l m = false → charsLt m l = false → l = m := by
  intro l
  induction l with
  | nil =>
    intro m h _
    cases m with
    | nil => rfl
    | cons b bs => simp [charsLt] at h
  | cons a as ih =>
    intro m h h2
    cases m with
    | nil => simp [charsLt] at h2
    | cons b bs =>
      simp only [charsLt] at h h2
      by_cases hab : a.toNat < b.toNat
      · simp [hab] at h
      · by_cases hba : b.toNat < a.toNat
        · simp [hab, hba] at h2
        · have habeq : a = b := by
            have : a.toNat = b.toNat := by omega
            rw [← Char.ofNat_toNat a, ← Char.ofNat_toNat b, this]
          simp only [hab, hba, if_neg, if_false] at h h2
          rw [habeq, ih bs h h2]

theorem strLt_irrefl (a : String) : strLt a a = false := charsLt_irrefl a.data

theorem strLt_asymm {a b : String} (h : strLt a b = true) :
    strLt b a = false := charsLt_asymm a.data b.data h

theorem strLt_trans {a b c : String} (h1 : strLt a b = true)
    (h2 : strLt b c = true) : strLt a c = true :=
  charsLt_trans a.data b.data c.data h1 h2

theorem strLt_total_eq {a b : String} (h1 : strLt a b = false)
    (h2 : strLt b a = false) : a = b := by
  cases a with
  | mk la =>
    cases b with
    | mk lb => exact congrArg String.mk (charsLt_total_eq la lb h1 h2)

/-! ### Exact fractions

Spreadsheet cells and the arithmetic of the scripts are modelled as exact
fractions: a pair of integers, not reduced, with value `num / den`. All
fractions produced by the embedding keep a positive denominator. Equality of
values is cross-multiplication, mirroring numeric equality in the scripts. -/

structure Frac where
  num : Int
  den : Int
deriving DecidableEq

/-- Embed an integer as a fraction. -/
def Frac.ofInt (n : Int) : Frac := ⟨n, 1⟩

def fadd (a b : Frac) : Frac := ⟨a.num * b.den + b.num * a.den, a.den * b.den⟩

def fsub (a b : Frac) : Frac := ⟨a.num * b.den - b.num * a.den, a.den * b.den⟩

def fmul (a b : Frac) : Frac := ⟨a.num * b.num, a.den * b.den⟩

def fdiv (a b : Frac) : Frac := ⟨a.num * b.den, a.den * b.num⟩

/-- Value equality of fractions (cross-multiplication). -/
def feq (a b : Frac) : Bool := a.num * b.den = b.num * a.den

/-- Floor of the value of a fraction, defined for the positive denominators
the embedding produces. -/
def ffloor (q : Frac) : Int :=
  if 0 ≤ q.den then q.num.fdiv q.den else (-q.num).fdiv (-q.den)

/-- Ceiling of the value of a fraction. -/
def fceil (q : Frac) : Int := -(ffloor ⟨-q.num, q.den⟩)

theorem feq_refl (a : Frac) : feq a a = true := by
  simp [feq, Int.mul_comm]

/-! ### Decimal digit strings

`digitsOfNat n` is the base-10 digit string of `n`, most significant digit
first, as Python prints a nonnegative integer. `natFromDigits` is the value
a reader recovers from such a digit string. -/

/-- Digit test by code point (the same test as `Char.isDigit`, stated on
`Char.toNat` so that range reasoning is direct). -/
def isDig (c : Char) : Bool := 48 ≤ c.toNat && c.toNat ≤ 57

/-- Auxiliary digit expansion with explicit fuel (the fuel only needs to
dominate the number of digits). -/
def digitsAux : Nat → Nat → List Char
  | 0, _ => []
  | _ + 1, 0 => []
  | fuel + 1, n + 1 =>
    digitsAux fuel ((n + 1) / 10) ++ [Nat.digitChar ((n + 1) % 10)]

/-- Base-10 digit characters of a natural number, most significant first. -/
def digitsOfNat (n : Nat) : List Char :=
  if n = 0 then ['0'] else digitsAux (n + 1) n

/-- Numeric value of a digit character. -/
def digitVal (c : Char) : Nat := c.toNat - 48

/-- Value recovered from a most-significant-first digit string. -/
def natFromDigits (l : List Char) : Nat :=
  l.foldl (fun a c => 10 * a + digitVal c) 0

theorem natFromDigits_append (l m : List Char) :
    natFromDigits (l ++ m) =
      m.foldl (fun a c => 10 * a + digitVal c) (natFromDigits l) := by
  simp [natFromDigits, List.foldl_append]

theorem digitVal_digitChar {d : Nat} (h : d < 10) :
    digitVal (Nat.digitChar d) = d := by
  interval_cases d <;> rfl

theorem digitChar_isDig {d : Nat} (h : d < 10) :
    isDig (Nat.digitChar d) = true := by
  interval_cases d <;> rfl

theorem natFromDigits_digitsAux (fuel n : Nat) (h : n < fuel) :
    natFromDigits (digitsAux fuel n) = n := by
  induction fuel generalizing n with
  | zero => omega
  | succ f ih =>
    cases n with
    | zero => rfl
    | succ m =>
      rw [digitsAux, natFromDigits_append]
      have hdiv : (m + 1) / 10 < f := by
        have h1 : (m + 1) / 10 < m + 1 := Nat.div_lt_self (by omega) (by omega)
        omega
      have hmod : (m + 1) % 10 < 10 := Nat.mod_lt _ (by omega)
      simp only [List.foldl_cons, List.foldl_nil, ih _ hdiv,
        digitVal_digitChar hmod]
      omega

theorem natFromDigits_digitsOfNat (n : Nat) :
    natFromDigits (digitsOfNat n) = n := by
  unfold digitsOfNat
  by_cases h : n = 0
  · subst h; rfl
  · rw [if_neg h]
    exact natFromDigits_digitsAux (n + 1) n (by omega)

theorem digitsAux_all_isDig (fuel n : Nat) :
    ∀ c ∈ digitsAux fuel n, isDig c = true := by
  induction fuel generalizing n with
  | zero => intro c hc; simp [digitsAux] at hc
  | succ f ih =>
    intro c hc
    cases n with
    | zero => simp [digitsAux] at hc
    | succ m =>
      rw [digitsAux] at hc
      rcases List.mem_append.mp hc with h | h
      · exact ih _ c h
      · have : c = Nat.digitChar ((m + 1) % 10) := by simpa using h
        rw [this]
        exact digitChar_isDig (Nat.mod_lt _ (by omega))

theorem digitsOfNat_all_isDig (n : Nat) :
    ∀ c ∈ digitsOfNat n, isDig c = true := by
  unfold digitsOfNat
  by_cases h : n = 0
  · subst h; intro c hc; simp at hc; rw [hc]; rfl
  · rw [if_neg h]; exact digitsAux_all_isDig _ _

theorem digitsOfNat_ne_nil (n : Nat) : digitsOfNat n ≠ [] := by
  unfold digitsOfNat
  by_cases h : n = 0
  · simp [h]
  · rw [if_neg h]
    cases n with
    | zero => omega
    | succ m =>
      rw [digitsAux]
      simp

/-! ### JSON documents

JSON values as written by the Python `json` module for the data the scripts
produce: `null`, booleans, finite decimal numbers (value `m / 10 ^ e`,
which is how the `repr` of a Python int or float reads back), strings, and
nested arrays and objects. Arrays and objects are separate inductives so
that all functions below are plain structural recursions. -/

mutual
inductive JValue where
  | null : JValue
  | bool (b : Bool) : JValue
  | num (m : Int) (e : Nat) : JValue
  | str (s : String) : JValue
  | arr (xs : JArr) : JValue
  | obj (kvs : JObj) : JValue
deriving DecidableEq
inductive JArr where
  | nil : JArr
  | cons (hd : JValue) (tl : JArr) : JArr
deriving DecidableEq
inductive JObj where
  | nil : JObj
  | cons (k : String) (v : JValue) (tl : JObj) : JObj
deriving DecidableEq
end

/-- Build a JSON array from a list of values. -/
def jarr : List JValue → JArr
  | [] => .nil
  | v :: t => .cons v (jarr t)

/-- Build a JSON object from an association list (insertion order kept,
like a Python dict). -/
def jobj : List (String × JValue) → JObj
  | [] => .nil
  | (k, v) :: t => .cons k v (jobj t)

/-! Parser fuel weights: the weight of a value bounds the fuel the JSON
reader needs to consume its printed form. -/

mutual
def jwV : JValue → Nat
  | .null => 1
  | .bool _ => 1
  | .num _ _ => 1
  | .str _ => 1
  | .arr xs => 1 + jwA xs
  | .obj kvs => 1 + jwO kvs
def jwA : JArr → Nat
  | .nil => 1
  | .cons x tl => 1 + jwV x + jwA tl
def jwO : JObj → Nat
  | .nil => 1
  | .cons _ v tl => 1 + jwV v + jwO tl
end

/-! Well-formedness: every string that reaches the serializer consists of
printable ASCII characters. On this fragment the embedded printer agrees
with the Python `json` module (which would additionally escape control and
non-ASCII characters). -/

/-- Printable ASCII character, the fragment on which the embedded JSON
printer matches Python exactly. -/
def wfChar (c : Char) : Bool := 32 ≤ c.toNat && c.toNat ≤ 126

def wfStr (s : String) : Bool := s.data.all wfChar

mutual
def wfV : JValue → Bool
  | .null => true
  | .bool _ => true
  | .num _ _ => true
  | .str s => wfStr s
  | .arr xs => wfA xs
  | .obj kvs => wfO kvs
def wfA : JArr → Bool
  | .nil => true
  | .cons x tl => wfV x && wfA tl
def wfO : JObj → Bool
  | .nil => true
  | .cons k v tl => wfStr k && wfV v && wfO tl
end

/-! ### The JSON writer

`printVal` mirrors the text produced by
`json.dump(value, f, sort_keys=False, indent=2, separators=(",", ": "))`
on an already key-sorted value; `save_geojson` below composes it with the
deep key sort, which is exactly what `sort_keys=True` produces. -/

/-- Indentation for nesting level `ind` with the 2-space indent of the
scripts. -/
def indentChars (ind : Nat) : List Char := List.replicate (2 * ind) ' '

/-- JSON string escaping on the printable ASCII fragment: quote and
backslash get a backslash, everything else is copied. -/
def escapeChar (c : Char) : List Char :=
  if c = '"' then ['\\', '"'] else if c = '\\' then ['\\', '\\'] else [c]

def escChars : List Char → List Char
  | [] => []
  | c :: t => escapeChar c ++ escChars t

/-- Digits of an integer with its sign, as Python prints an int. -/
def printInt (m : Int) : List Char :=
  (if m < 0 then ['-'] else []) ++ digitsOfNat m.natAbs

/-- Left-pad a digit string with zeros to the given length. -/
def padZeros (n : Nat) (l : List Char) : List Char :=
  List.replicate (n - l.length) '0' ++ l

/-- Decimal rendering of `m / 10 ^ e`: for `e = 0` an integer, otherwise a
decimal point with exactly `e` fractional digits, as the repr of the
corresponding Python number. -/
def printNum (m : Int) (e : Nat) : List Char :=
  if e = 0 then printInt m
  else
    (if m < 0 then ['-'] else []) ++
      (let ds := padZeros (e + 1) (digitsOfNat m.natAbs)
       ds.take (ds.length - e) ++ '.' :: ds.drop (ds.length - e))

/-- Printed form of an object key followed by the `": "` key separator. -/
def keyChars (k : String) : List Char :=
  '"' :: (escChars k.data ++ ['"', ':', ' '])

mutual
def printVal : Nat → JValue → List Char
  | _, .null => ['n', 'u', 'l', 'l']
  | _, .bool true => ['t', 'r', 'u', 'e']
  | _, .bool false => ['f', 'a', 'l', 's', 'e']
  | _, .num m e => printNum m e
  | _, .str s => '"' :: (escChars s.data ++ ['"'])
  | _, .arr .nil => ['[', ']']
  | ind, .arr (.cons x tl) =>
    '[' :: '\n' :: (indentChars (ind + 1) ++ printVal (ind + 1) x ++
      printArrTail (ind + 1) tl ++ '\n' :: (indentChars ind ++ [']']))
  | _, .obj .nil => ['\x7b', '\x7d']
  | ind, .obj (.cons k v tl) =>
    '\x7b' :: '\n' :: (indentChars (ind + 1) ++ keyChars k ++
      printVal (ind + 1) v ++ printObjTail (ind + 1) tl ++
      '\n' :: (indentChars ind ++ ['\x7d']))
def printArrTail : Nat → JArr → List Char
  | _, .nil => []
  | ind, .cons y tl =>
    ',' :: '\n' :: (indentChars ind ++ printVal ind y ++ printArrTail ind tl)
def printObjTail : Nat → JObj → List Char
  | _, .nil => []
  | ind, .cons k v tl =>
    ',' :: '\n' :: (indentChars ind ++ keyChars k ++ printVal ind v ++
      printObjTail ind tl)
end

/-! ### Key sorting

Python dict keys are serialized in sorted order under `sort_keys=True`;
`sortObj` is a stable insertion sort by the code-point order on keys and
`sortDeepV` applies it at every nesting level. -/

/-- Insert an entry before the first entry whose key is not smaller. -/
def insertObj (k : String) (v : JValue) : JObj → JObj
  | .nil => .cons k v .nil
  | .cons k2 v2 tl =>
    if strLt k2 k then .cons k2 v2 (insertObj k v tl)
    else .cons k v (.cons k2 v2 tl)

/-- Stable insertion sort of object entries by key. -/
def sortObj : JObj → JObj
  | .nil => .nil
  | .cons k v tl => insertObj k v (sortObj tl)

mutual
def sortDeepV : JValue → JValue
  | .null => .null
  | .bool b => .bool b
  | .num m e => .num m e
  | .str s => .str s
  | .arr xs => .arr (sortDeepA xs)
  | .obj kvs => .obj (sortObj (sortDeepO kvs))
def sortDeepA : JArr → JArr
  | .nil => .nil
  | .cons x tl => .cons (sortDeepV x) (sortDeepA tl)
def sortDeepO : JObj → JObj
  | .nil => .nil
  | .cons k v tl => .cons k (sortDeepV v) (sortDeepO tl)
end

/-- Text written by `save_geojson` (and by the identical `save_json` of the
other two scripts): `json.dump(geojson, f, sort_keys=True, indent=2,
separators=(",", ": "))`. Sorting every object and then printing is exactly
the output of the sorted-keys dump. -/
def save_geojson (geojson : JValue) : String :=
  String.mk (printVal 0 (sortDeepV geojson))

/-! ### A JSON reader

The scripts do not contain a JSON reader; the round-trip claim speaks about
parsing the written document back. `pVal` is a standard recursive-descent
reader for the JSON fragment the writer emits (strings with quote and
backslash escapes, sign and decimal-point numbers, arrays, objects,
literals), with explicit fuel to make the recursion structural. -/

/-- Whitespace in the sense of the JSON grammar. -/
def charIsWs (c : Char) : Bool :=
  c.toNat = 32 || c.toNat = 10 || c.toNat = 9 || c.toNat = 13

def skipWs (l : List Char) : List Char := l.dropWhile charIsWs

/-- Read the body of a JSON string after the opening quote, undoing the
escaping of `escapeChar`. -/
def pStrChars : List Char → Option (List Char × List Char)
  | [] => none
  | c :: r =>
    if c = '"' then some ([], r)
    else if c = '\\' then
      match r with
      | [] => none
      | e :: r2 =>
        if e = '"' ∨ e = '\\' then
          match pStrChars r2 with
          | none => none
          | some (l, r3) => some (e :: l, r3)
        else none
    else
      match pStrChars r with
      | none => none
      | some (l, r3) => some (c :: l, r3)

/-- Apply an optional leading minus sign. -/
def mkSigned (neg : Bool) (a : Nat) : Int := if neg then -(a : Int) else a

/-- Read digits and an optional fractional part; the number of fractional
digits read becomes the decimal exponent. -/
def pNumCore (neg : Bool) (cs : List Char) : Option ((Int × Nat) × List Char) :=
  let ds := cs.takeWhile isDig
  let r1 := cs.dropWhile isDig
  if ds = [] then none
  else
    match r1 with
    | c :: r2 =>
      if c = '.' then
        let fs := r2.takeWhile isDig
        let r3 := r2.dropWhile isDig
        if fs = [] then none
        else some ((mkSigned neg (natFromDigits (ds ++ fs)), fs.length), r3)
      else some ((mkSigned neg (natFromDigits ds), 0), c :: r2)
    | [] => some ((mkSigned neg (natFromDigits ds), 0), [])

/-- Read a JSON number. -/
def pNum : List Char → Option ((Int × Nat) × List Char)
  | [] => none
  | c :: r => if c = '-' then pNumCore true r else pNumCore false (c :: r)

/-- Expect the given literal characters. -/
def dropLit : List Char → List Char → Option (List Char)
  | [], cs => some cs
  | _ :: _, [] => none
  | p :: ps, c :: cs => if c = p then dropLit ps cs else none

mutual
def pVal : Nat → List Char → Option (JValue × List Char)
  | 0, _ => none
  | f + 1, cs =>
    match skipWs cs with
    | [] => none
    | c :: r =>
      if c = '"' then
        match pStrChars r with
        | none => none
        | some (l, r1) => some (.str (String.mk l), r1)
      else if c = '[' then
        match pArr f r with
        | none => none
        | some (xs, r1) => some (.arr xs, r1)
      else if c = '\x7b' then
        match pObj f r with
        | none => none
        | some (kvs, r1) => some (.obj kvs, r1)
      else if c = 'n' then
        match dropLit ['u', 'l', 'l'] r with
        | none => none
        | some r1 => some (.null, r1)
      else if c = 't' then
        match dropLit ['r', 'u', 'e'] r with
        | none => none
        | some r1 => some (.bool true, r1)
      else if c = 'f' then
        match dropLit ['a', 'l', 's', 'e'] r with
        | none => none
        | some r1 => some (.bool false, r1)
      else
        match pNum (c :: r) with
        | none => none
        | some (p, r1) => some (.num p.1 p.2, r1)
def pArr : Nat → List Char → Option (JArr × List Char)
  | 0, _ => none
  | f + 1, cs =>
    match skipWs cs with
    | [] => none
    | c :: r =>
      if c = ']' then some (.nil, r)
      else
        match pVal f (c :: r) with
        | none => none
        | some (v, r1) =>
          match skipWs r1 with
          | [] => none
          | c2 :: r2 =>
            if c2 = ',' then
              match pArr f r2 with
              | none => none
              | some (tl, r3) => some (.cons v tl, r3)
            else if c2 = ']' then some (.cons v .nil, r2)
            else none
def pObj : Nat → List Char → Option (JObj × List Char)
  | 0, _ => none
  | f + 1, cs =>
    match skipWs cs with
    | [] => none
    | c :: r =>
      if c = '\x7d' then some (.nil, r)
      else if c = '"' then
        match pStrChars r with
        | none => none
        | some (k, r1) =>
          match skipWs r1 with
          | [] => none
          | c2 :: r2 =>
            if c2 = ':' then
              match pVal f r2 with
              | none => none
              | some (v, r3) =>
                match skipWs r3 with
                | [] => none
                | c3 :: r4 =>
                  if c3 = ',' then
                    match pObj f r4 with
                    | none => none
                    | some (tl, r5) => some (.cons (String.mk k) v tl, r5)
                  else if c3 = '\x7d' then
                    some (.cons (String.mk k) v .nil, r4)
                  else none
            else none
      else none
end

/-- Read a complete JSON document: one value and trailing whitespace. -/
def jparse (s : String) : Option JValue :=
  match pVal (s.data.length + 1) s.data with
  | some (v, rest) => if skipWs rest = [] then some v else none
  | none => none

/-! ### Round-trip lemmas: the reader recovers what the writer printed -/

theorem jwV_pos (v : JValue) : 0 < jwV v := by
  cases v <;> simp [jwV]

theorem jwA_pos (xs : JArr) : 0 < jwA xs := by
  cases xs <;> simp [jwA]

theorem jwO_pos (kvs : JObj) : 0 < jwO kvs := by
  cases kvs <;> simp [jwO]

/-- Lists made of JSON whitespace only. -/
def wsOnly (l : List Char) : Prop := ∀ c ∈ l, charIsWs c = true

/-- Guard on the text following a printed number: it must not begin with a
digit or a decimal point. All positions where the writer places a number
satisfy this. -/
def delimOk : List Char → Prop
  | [] => True
  | c :: _ => isDig c = false ∧ c ≠ '.'

theorem wsOnly_nil : wsOnly [] := by
  intro c hc
  simp at hc

theorem wsOnly_indent (n : Nat) : wsOnly (indentChars n) := by
  intro c hc
  rw [indentChars] at hc
  rw [List.eq_of_mem_replicate hc]
  rfl

theorem wsOnly_cons {c : Char} {l : List Char} (h1 : charIsWs c = true)
    (h2 : wsOnly l) : wsOnly (c :: l) := by
  intro d hd
  rcases List.mem_cons.mp hd with h | h
  · rw [h]; exact h1
  · exact h2 d h

theorem skipWs_append_ws : ∀ pre l : List Char, wsOnly pre →
    skipWs (pre ++ l) = skipWs l := by
  intro pre
  induction pre with
  | nil => intro l _; rfl
  | cons c t ih =>
    intro l h
    have hc : charIsWs c = true := h c (List.mem_cons_self c t)
    have ht : wsOnly t := fun d hd => h d (List.mem_cons_of_mem c hd)
    show skipWs (c :: (t ++ l)) = skipWs l
    simp only [skipWs, List.dropWhile_cons, hc, if_true]
    exact ih l ht

theorem skipWs_cons_neg {c : Char} (l : List Char) (h : charIsWs c = false) :
    skipWs (c :: l) = c :: l := by
  simp only [skipWs, List.dropWhile_cons, h]
  simp

theorem char_ne_of_toNat {c d : Char} (h : c.toNat ≠ d.toNat) : c ≠ d :=
  fun he => h (by rw [he])

theorem isDig_not_ws {c : Char} (h : isDig c = true) : charIsWs c = false := by
  simp only [isDig, Bool.and_eq_true, decide_eq_true_eq] at h
  simp only [charIsWs, Bool.or_eq_false_iff, decide_eq_false_iff_not]
  omega

theorem isDig_toNat {c : Char} (h : isDig c = true) :
    48 ≤ c.toNat ∧ c.toNat ≤ 57 := by
  simp only [isDig, Bool.and_eq_true, decide_eq_true_eq] at h
  exact h

theorem printNum_head (m : Int) (e : Nat) :
    ∃ c r, printNum m e = c :: r ∧ (c = '-' ∨ isDig c = true) := by
  by_cases he : e = 0
  · subst he
    rw [printNum, if_pos rfl, printInt]
    by_cases hm : m < 0
    · exact ⟨'-', _, by rw [if_pos hm]; rfl, Or.inl rfl⟩
    · rw [if_neg hm, List.nil_append]
      obtain ⟨c, r, hcr⟩ :=
        List.exists_cons_of_ne_nil (digitsOfNat_ne_nil m.natAbs)
      refine ⟨c, r, hcr, Or.inr ?_⟩
      exact digitsOfNat_all_isDig m.natAbs c (by rw [hcr]; simp)
  · by_cases hm : m < 0
    · exact ⟨'-', _, by rw [printNum, if_neg he, if_pos hm]; rfl, Or.inl rfl⟩
    · have hpz : padZeros (e + 1) (digitsOfNat m.natAbs) ≠ [] := by
        intro hnil
        rw [padZeros] at hnil
        exact digitsOfNat_ne_nil m.natAbs (List.append_eq_nil.mp hnil).2
      obtain ⟨c, t, hct⟩ := List.exists_cons_of_ne_nil hpz
      have hcdig : isDig c = true := by
        have hmem : c ∈ padZeros (e + 1) (digitsOfNat m.natAbs) := by
          rw [hct]; simp
        rw [padZeros] at hmem
        rcases List.mem_append.mp hmem with h | h
        · rw [List.eq_of_mem_replicate h]; rfl
        · exact digitsOfNat_all_isDig m.natAbs c h
      have hlen : 1 ≤ (padZeros (e + 1) (digitsOfNat m.natAbs)).length - e := by
        rw [padZeros, List.length_append, List.length_replicate]
        omega
      rw [hct] at hlen
      obtain ⟨k, hk⟩ : ∃ k, (c :: t).length - e = k + 1 :=
        ⟨(c :: t).length - e - 1, by omega⟩
      refine ⟨c, t.take k ++ '.' :: (c :: t).drop (k + 1), ?_, Or.inr hcdig⟩
      simp only [printNum, if_neg he, if_neg hm, List.nil_append, hct, hk,
        List.take_succ_cons, List.cons_append]

theorem printVal_head (ind : Nat) (v : JValue) :
    ∃ c r, printVal ind v = c :: r ∧ charIsWs c = false ∧ c ≠ ']' := by
  cases v with
  | null => exact ⟨'n', _, rfl, by decide, by decide⟩
  | bool b =>
    cases b with
    | true => exact ⟨'t', _, rfl, by decide, by decide⟩
    | false => exact ⟨'f', _, rfl, by decide, by decide⟩
  | num m e =>
    obtain ⟨c, r, hcr, hc⟩ := printNum_head m e
    refine ⟨c, r, by rw [printVal, hcr], ?_, ?_⟩
    · rcases hc with h | h
      · rw [h]; decide
      · exact isDig_not_ws h
    · rcases hc with h | h
      · rw [h]; decide
      · apply char_ne_of_toNat
        have := isDig_toNat h
        intro hx
        rw [show (']').toNat = 93 from rfl] at hx
        omega
  | str s => exact ⟨'"', _, rfl, by decide, by decide⟩
  | arr xs =>
    cases xs with
    | nil => exact ⟨'[', _, rfl, by decide, by decide⟩
    | cons x tl => exact ⟨'[', _, rfl, by decide, by decide⟩
  | obj kvs =>
    cases kvs with
    | nil => exact ⟨'\x7b', _, rfl, by decide, by decide⟩
    | cons k v tl => exact ⟨'\x7b', _, rfl, by decide, by decide⟩

theorem pStrChars_esc : ∀ l rest : List Char,
    pStrChars (escChars l ++ '"' :: rest) = some (l, rest) := by
  intro l
  induction l with
  | nil =>
    intro rest
    show pStrChars ('"' :: rest) = some ([], rest)
    rw [pStrChars.eq_def]
    simp
  | cons c t ih =>
    intro rest
    by_cases h1 : c = '"'
    · subst h1
      simp only [escChars, escapeChar, if_pos rfl, List.cons_append,
        List.nil_append, List.append_assoc]
      rw [pStrChars.eq_def]
      simp [ih rest]
    · by_cases h2 : c = '\\'
      · subst h2
        simp only [escapeChar, escChars, if_neg (show ¬ ('\\') = '"' by decide),
          if_pos rfl, List.cons_append, List.nil_append, List.append_assoc]
        rw [pStrChars.eq_def]
        simp [ih rest]
      · simp only [escChars, escapeChar, if_neg h1, if_neg h2,
          List.cons_append, List.nil_append]
        rw [pStrChars.eq_def]
        simp [ih rest, h1, h2]

/-- Head condition used by take/drop splitting. -/
def headFalse (p : Char → Bool) : List Char → Prop
  | [] => True
  | c :: _ => p c = false

theorem takeWhile_append_of_all (p : Char → Bool) :
    ∀ l m : List Char, (∀ c ∈ l, p c = true) → headFalse p m →
      (l ++ m).takeWhile p = l := by
  intro l
  induction l with
  | nil =>
    intro m _ hm
    cases m with
    | nil => rfl
    | cons c r =>
      simp only [List.nil_append, List.takeWhile_cons]
      rw [hm]
      simp
  | cons a t ih =>
    intro m h hm
    have ha : p a = true := h a (List.mem_cons_self a t)
    simp only [List.cons_append, List.takeWhile_cons, ha, if_true]
    rw [ih m (fun c hc => h c (List.mem_cons_of_mem a hc)) hm]

theorem dropWhile_append_of_all (p : Char → Bool) :
    ∀ l m : List Char, (∀ c ∈ l, p c = true) → headFalse p m →
      (l ++ m).dropWhile p = m := by
  intro l
  induction l with
  | nil =>
    intro m _ hm
    cases m with
    | nil => rfl
    | cons c r =>
      simp only [List.nil_append, List.dropWhile_cons]
      rw [hm]
      simp
  | cons a t ih =>
    intro m h hm
    have ha : p a = true := h a (List.mem_cons_self a t)
    simp only [List.cons_append, List.dropWhile_cons, ha, if_true]
    exact ih m (fun c hc => h c (List.mem_cons_of_mem a hc)) hm

theorem natFromDigits_pad (k : Nat) (l : List Char) :
    natFromDigits (List.replicate k '0' ++ l) = natFromDigits l := by
  induction k with
  | zero => rfl
  | succ n ih =>
    rw [List.replicate_succ, List.cons_append]
    show natFromDigits (List.replicate n '0' ++ l) = _
    exact ih

theorem headFalse_cons {p : Char → Bool} {c : Char} {r : List Char}
    (h : p c = false) : headFalse p (c :: r) := h

theorem headFalse_of_delimOk {rest : List Char} (h : delimOk rest) :
    headFalse isDig rest := by
  cases rest with
  | nil => trivial
  | cons c r => exact h.1

theorem mkSigned_natAbs_neg {m : Int} (h : m < 0) :
    mkSigned true m.natAbs = m := by
  simp only [mkSigned, if_pos rfl]
  change -(↑m.natAbs : Int) = m
  omega

theorem mkSigned_natAbs_nonneg {m : Int} (h : ¬ m < 0) :
    mkSigned false m.natAbs = m := by
  simp only [mkSigned, if_neg (by decide : ¬ false = true)]
  change (↑m.natAbs : Int) = m
  omega

theorem padZeros_all_isDig (n : Nat) (l : List Char)
    (hl : ∀ c ∈ l, isDig c = true) : ∀ c ∈ padZeros n l, isDig c = true := by
  intro c hc
  rw [padZeros] at hc
  rcases List.mem_append.mp hc with h | h
  · rw [List.eq_of_mem_replicate h]; rfl
  · exact hl c h

theorem pNumCore_digits (neg : Bool) (a : Nat) (rest : List Char)
    (h : delimOk rest) :
    pNumCore neg (digitsOfNat a ++ rest) = some ((mkSigned neg a, 0), rest) := by
  have hall := digitsOfNat_all_isDig a
  have hhf : headFalse isDig rest := headFalse_of_delimOk h
  simp only [pNumCore]
  rw [takeWhile_append_of_all isDig _ _ hall hhf,
    dropWhile_append_of_all isDig _ _ hall hhf]
  rw [if_neg (digitsOfNat_ne_nil a)]
  cases rest with
  | nil => simp [natFromDigits_digitsOfNat]
  | cons c r =>
    have hc : ¬ c = '.' := h.2
    simp [hc, natFromDigits_digitsOfNat]

/-- Body of a printed decimal (the part after the sign). -/
def decBody (e a : Nat) : List Char :=
  let pz := padZeros (e + 1) (digitsOfNat a)
  pz.take (pz.length - e) ++ '.' :: pz.drop (pz.length - e)

theorem printNum_decBody (m : Int) (e : Nat) (he : ¬ e = 0) :
    printNum m e = (if m < 0 then ['-'] else []) ++ decBody e m.natAbs := by
  simp [printNum, decBody, if_neg he]

theorem pNumCore_decBody (neg : Bool) (a e : Nat) (he : ¬ e = 0)
    (rest : List Char) (h : delimOk rest) :
    pNumCore neg (decBody e a ++ rest) = some ((mkSigned neg a, e), rest) := by
  have hallz : ∀ c ∈ padZeros (e + 1) (digitsOfNat a), isDig c = true :=
    padZeros_all_isDig _ _ (digitsOfNat_all_isDig a)
  have hlen : e + 1 ≤ (padZeros (e + 1) (digitsOfNat a)).length := by
    rw [padZeros, List.length_append, List.length_replicate]
    omega
  set pz := padZeros (e + 1) (digitsOfNat a) with hpzdef
  have htake_all : ∀ c ∈ pz.take (pz.length - e), isDig c = true :=
    fun c hc => hallz c (List.take_subset _ _ hc)
  have hdrop_all : ∀ c ∈ pz.drop (pz.length - e), isDig c = true :=
    fun c hc => hallz c (List.drop_subset _ _ hc)
  have hrestHF : headFalse isDig rest := headFalse_of_delimOk h
  have hshape : decBody e a ++ rest
      = pz.take (pz.length - e) ++ ('.' :: (pz.drop (pz.length - e) ++ rest)) := by
    simp [decBody, ← hpzdef, List.append_assoc]
  rw [hshape]
  simp only [pNumCore]
  rw [takeWhile_append_of_all isDig _ _ htake_all
      (headFalse_cons (by decide)),
    dropWhile_append_of_all isDig _ _ htake_all
      (headFalse_cons (by decide))]
  have htne : pz.take (pz.length - e) ≠ [] := by
    intro hn
    have hlt : (pz.take (pz.length - e)).length = pz.length - e := by
      rw [List.length_take]
      omega
    rw [hn] at hlt
    simp at hlt
    omega
  rw [if_neg htne]
  have hfs : List.takeWhile isDig (pz.drop (pz.length - e) ++ rest)
      = pz.drop (pz.length - e) :=
    takeWhile_append_of_all isDig _ _ hdrop_all hrestHF
  have hds : List.dropWhile isDig (pz.drop (pz.length - e) ++ rest) = rest :=
    dropWhile_append_of_all isDig _ _ hdrop_all hrestHF
  have hlendrop : (pz.drop (pz.length - e)).length = e := by
    rw [List.length_drop]
    omega
  have hfsne : pz.drop (pz.length - e) ≠ [] := by
    intro hn
    rw [hn] at hlendrop
    simp at hlendrop
    omega
  have hval : natFromDigits pz = a := by
    rw [hpzdef, padZeros, natFromDigits_pad, natFromDigits_digitsOfNat]
  simp [hfs, hds, hfsne, hval, hlendrop]

theorem pNum_print (m : Int) (e : Nat) (rest : List Char) (h : delimOk rest) :
    pNum (printNum m e ++ rest) = some ((m, e), rest) := by
  by_cases he : e = 0
  · subst he
    by_cases hm : m < 0
    · have hpn : printNum m 0 = '-' :: digitsOfNat m.natAbs := by
        simp [printNum, printInt, if_pos hm]
      rw [hpn, List.cons_append, pNum]
      rw [if_pos rfl, pNumCore_digits true m.natAbs rest h,
        mkSigned_natAbs_neg hm]
    · have hpn : printNum m 0 = digitsOfNat m.natAbs := by
        simp [printNum, printInt, if_neg hm]
      rw [hpn]
      obtain ⟨d, t, hdt⟩ :=
        List.exists_cons_of_ne_nil (digitsOfNat_ne_nil m.natAbs)
      have hd : isDig d = true :=
        digitsOfNat_all_isDig _ d (by rw [hdt]; simp)
      have hdne : ¬ d = '-' := by
        apply char_ne_of_toNat
        have := isDig_toNat hd
        intro hx
        rw [show ('-').toNat = 45 from rfl] at hx
        omega
      rw [hdt, List.cons_append, pNum, if_neg hdne,
        show d :: (t ++ rest) = digitsOfNat m.natAbs ++ rest by
          rw [hdt, List.cons_append],
        pNumCore_digits false m.natAbs rest h, mkSigned_natAbs_nonneg hm]
  · by_cases hm : m < 0
    · have hpn : printNum m e = '-' :: decBody e m.natAbs := by
        rw [printNum_decBody m e he, if_pos hm, List.cons_append,
          List.nil_append]
      rw [hpn, List.cons_append, pNum]
      rw [if_pos rfl, pNumCore_decBody true m.natAbs e he rest h,
        mkSigned_natAbs_neg hm]
    · have hpn : printNum m e = decBody e m.natAbs := by
        rw [printNum_decBody m e he, if_neg hm, List.nil_append]
      obtain ⟨c, r, hcr, hc⟩ := printNum_head m e
      have hcd : isDig c = true := by
        rcases hc with hcm | hcd
        · rw [hcm] at hcr
          exfalso
          -- a leading minus sign only appears for negative numbers
          rw [hpn] at hcr
          have hmem : '-' ∈ decBody e m.natAbs := by rw [hcr]; simp
          have : isDig '-' = true := by
            rw [decBody] at hmem
            rcases List.mem_append.mp hmem with hx | hx
            · exact padZeros_all_isDig _ _ (digitsOfNat_all_isDig _) _
                (List.take_subset _ _ hx)
            · rcases List.mem_cons.mp hx with hy | hy
              · exact absurd hy (by decide)
              · exact padZeros_all_isDig _ _ (digitsOfNat_all_isDig _) _
                  (List.drop_subset _ _ hy)
          exact absurd this (by decide)
        · exact hcd
      have hdne : ¬ c = '-' := by
        apply char_ne_of_toNat
        have := isDig_toNat hcd
        intro hx
        rw [show ('-').toNat = 45 from rfl] at hx
        omega
      rw [hcr, List.cons_append, pNum, if_neg hdne,
        show c :: (r ++ rest) = decBody e m.natAbs ++ rest by
          rw [← List.cons_append, ← hcr, hpn],
        pNumCore_decBody false m.natAbs e he rest h,
        mkSigned_natAbs_nonneg hm]

theorem strMk_data (s : String) : String.mk s.data = s := by
  cases s
  rfl

theorem skipWs_cons_ws {c : Char} (l : List Char) (h : charIsWs c = true) :
    skipWs (c :: l) = skipWs l := by
  simp [skipWs, List.dropWhile_cons, h]

theorem delimOk_arrTail (ind : Nat) (tl : JArr) (X : List Char) :
    delimOk (printArrTail ind tl ++ '\n' :: X) := by
  cases tl with
  | nil => exact ⟨by decide, by decide⟩
  | cons y tl2 => exact ⟨by decide, by decide⟩

theorem delimOk_objTail (ind : Nat) (tl : JObj) (X : List Char) :
    delimOk (printObjTail ind tl ++ '\n' :: X) := by
  cases tl with
  | nil => exact ⟨by decide, by decide⟩
  | cons k v tl2 => exact ⟨by decide, by decide⟩

theorem numHead_ne {c : Char} (hc : c = '-' ∨ isDig c = true) :
    ¬ c = '"' ∧ ¬ c = '[' ∧ ¬ c = '\x7b' ∧ ¬ c = 'n' ∧ ¬ c = 't' ∧
      ¬ c = 'f' := by
  rcases hc with h | h
  · subst h
    exact ⟨by decide, by decide, by decide, by decide, by decide, by decide⟩
  · have hr := isDig_toNat h
    refine ⟨?_, ?_, ?_, ?_, ?_, ?_⟩
    · apply char_ne_of_toNat
      rw [show ('"').toNat = 34 from rfl]
      omega
    · apply char_ne_of_toNat
      rw [show ('[').toNat = 91 from rfl]
      omega
    · apply char_ne_of_toNat
      rw [show ('\x7b').toNat = 123 from rfl]
      omega
    · apply char_ne_of_toNat
      rw [show ('n').toNat = 110 from rfl]
      omega
    · apply char_ne_of_toNat
      rw [show ('t').toNat = 116 from rfl]
      omega
    · apply char_ne_of_toNat
      rw [show ('f').toNat = 102 from rfl]
      omega

theorem numHead_not_ws {c : Char} (hc : c = '-' ∨ isDig c = true) :
    charIsWs c = false := by
  rcases hc with h | h
  · subst h; decide
  · exact isDig_not_ws h

/-- The reader recovers exactly what the writer printed: one statement for
values (with an allowed whitespace prefix), one for the element loop of
arrays, one for the entry loop of objects, by induction on the reader fuel. -/
theorem parse_print_all : ∀ f : Nat,
    (∀ (v : JValue) (ind : Nat) (ws rest : List Char), jwV v ≤ f → wsOnly ws →
      delimOk rest →
      pVal f (ws ++ (printVal ind v ++ rest)) = some (v, rest)) ∧
    (∀ (x : JValue) (tl : JArr) (ind : Nat) (rest pre post : List Char),
      jwA (JArr.cons x tl) ≤ f → wsOnly pre → wsOnly post →
      pArr f (pre ++ (printVal ind x ++ (printArrTail ind tl ++
        '\n' :: (post ++ (']' :: rest))))) = some (JArr.cons x tl, rest)) ∧
    (∀ (k : String) (v : JValue) (tl : JObj) (ind : Nat)
        (rest pre post : List Char),
      jwO (JObj.cons k v tl) ≤ f → wsOnly pre → wsOnly post →
      pObj f (pre ++ (keyChars k ++ (printVal ind v ++ (printObjTail ind tl ++
        '\n' :: (post ++ ('\x7d' :: rest)))))) = some (JObj.cons k v tl, rest))
    := by
  intro f
  induction f with
  | zero =>
    refine ⟨?_, ?_, ?_⟩
    · intro v ind ws rest hw _ _
      exact absurd hw (by have := jwV_pos v; omega)
    · intro x tl ind rest pre post hw _ _
      exact absurd hw
        (by simp only [jwA]; have := jwV_pos x; have := jwA_pos tl; omega)
    · intro k v tl ind rest pre post hw _ _
      exact absurd hw
        (by simp only [jwO]; have := jwV_pos v; have := jwO_pos tl; omega)
  | succ f ih =>
    obtain ⟨ihP, ihA, ihO⟩ := ih
    refine ⟨?_, ?_, ?_⟩
    · intro v ind ws rest hw hws hd
      rw [pVal]
      rw [skipWs_append_ws ws _ hws]
      cases v with
      | null =>
        simp only [printVal, List.cons_append, List.nil_append]
        rw [skipWs_cons_neg _ (by decide)]
        simp [dropLit]
      | bool b =>
        cases b with
        | true =>
          simp only [printVal, List.cons_append, List.nil_append]
          rw [skipWs_cons_neg _ (by decide)]
          simp [dropLit]
        | false =>
          simp only [printVal, List.cons_append, List.nil_append]
          rw [skipWs_cons_neg _ (by decide)]
          simp [dropLit]
      | num m e =>
        obtain ⟨c, r, hcr, hc⟩ := printNum_head m e
        obtain ⟨h1, h2, h3, h4, h5, h6⟩ := numHead_ne hc
        have hback : c :: (r ++ rest) = printNum m e ++ rest := by
          rw [hcr, List.cons_append]
        simp only [printVal, hcr, List.cons_append]
        rw [skipWs_cons_neg _ (numHead_not_ws hc)]
        simp [h1, h2, h3, h4, h5, h6, hback, pNum_print m e rest hd]
      | str s =>
        simp only [printVal, List.cons_append, List.append_assoc,
          List.nil_append]
        rw [skipWs_cons_neg _ (by decide)]
        simp [pStrChars_esc s.data rest, strMk_data]
      | arr xs =>
        cases xs with
        | nil =>
          simp only [jwV, jwA] at hw
          cases f with
          | zero => omega
          | succ g =>
            simp only [printVal, List.cons_append, List.nil_append]
            rw [skipWs_cons_neg _ (by decide)]
            have hin : pArr (g + 1) (']' :: rest) = some (JArr.nil, rest) := by
              rw [pArr]
              rw [skipWs_cons_neg _ (by decide)]
              simp
            simp [hin]
        | cons x tl =>
          have hA := ihA x tl (ind + 1) rest ('\n' :: indentChars (ind + 1))
            (indentChars ind)
            (by simp only [jwV] at hw; omega)
            (wsOnly_cons (by decide) (wsOnly_indent (ind + 1)))
            (wsOnly_indent ind)
          simp only [List.cons_append, List.append_assoc, List.nil_append] at hA
          simp only [printVal, List.cons_append, List.append_assoc,
            List.nil_append]
          rw [skipWs_cons_neg _ (by decide)]
          simp [hA]
      | obj kvs =>
        cases kvs with
        | nil =>
          simp only [jwV, jwO] at hw
          cases f with
          | zero => omega
          | succ g =>
            simp only [printVal, List.cons_append, List.nil_append]
            rw [skipWs_cons_neg _ (by decide)]
            have hin : pObj (g + 1) ('\x7d' :: rest)
                = some (JObj.nil, rest) := by
              rw [pObj]
              rw [skipWs_cons_neg _ (by decide)]
              simp
            simp [hin]
        | cons k v tl =>
          have hO := ihO k v tl (ind + 1) rest ('\n' :: indentChars (ind + 1))
            (indentChars ind)
            (by simp only [jwV] at hw; omega)
            (wsOnly_cons (by decide) (wsOnly_indent (ind + 1)))
            (wsOnly_indent ind)
          simp only [List.cons_append, List.append_assoc, List.nil_append] at hO
          simp only [printVal, List.cons_append, List.append_assoc,
            List.nil_append]
          rw [skipWs_cons_neg _ (by decide)]
          simp [hO]
    · intro x tl ind rest pre post hw hpre hpost
      simp only [jwA] at hw
      obtain ⟨c, r, hcr, hnws, hnb⟩ := printVal_head ind x
      have hx := ihP x ind []
        (printArrTail ind tl ++ '\n' :: (post ++ (']' :: rest)))
        (by omega) wsOnly_nil (delimOk_arrTail ind tl (post ++ (']' :: rest)))
      simp only [List.nil_append] at hx
      have hback : c :: (r ++ (printArrTail ind tl ++
          '\n' :: (post ++ (']' :: rest))))
          = printVal ind x ++ (printArrTail ind tl ++
            '\n' :: (post ++ (']' :: rest))) := by
        rw [hcr, List.cons_append]
      rw [pArr]
      rw [skipWs_append_ws pre _ hpre]
      rw [hcr, List.cons_append]
      rw [skipWs_cons_neg _ hnws]
      cases tl with
      | nil =>
        have hskip : skipWs (printArrTail ind JArr.nil ++
            '\n' :: (post ++ (']' :: rest))) = ']' :: rest := by
          simp only [printArrTail, List.nil_append]
          rw [skipWs_cons_ws _ (by decide), skipWs_append_ws post _ hpost,
            skipWs_cons_neg _ (by decide)]
        simp [hnb, hback, hx, hskip]
      | cons y tl2 =>
        have hskip : skipWs (printArrTail ind (JArr.cons y tl2) ++
            '\n' :: (post ++ (']' :: rest)))
            = ',' :: ('\n' :: (indentChars ind ++ (printVal ind y ++
                (printArrTail ind tl2 ++ '\n' :: (post ++ (']' :: rest)))))) := by
          simp only [printArrTail, List.cons_append, List.append_assoc]
          rw [skipWs_cons_neg _ (by decide)]
        have hrec := ihA y tl2 ind rest ('\n' :: indentChars ind) post
          (by simp only [jwA] at hw ⊢; omega)
          (wsOnly_cons (by decide) (wsOnly_indent ind)) hpost
        simp only [List.cons_append, List.append_assoc, List.nil_append] at hrec
        simp [hnb, hback, hx, hskip, hrec]
    · intro k v tl ind rest pre post hw hpre hpost
      simp only [jwO] at hw
      have hv := ihP v ind [' ']
        (printObjTail ind tl ++ '\n' :: (post ++ ('\x7d' :: rest)))
        (by omega) (wsOnly_cons (by decide) wsOnly_nil)
        (delimOk_objTail ind tl (post ++ ('\x7d' :: rest)))
      simp only [List.cons_append, List.nil_append] at hv
      have hkey := pStrChars_esc k.data
        (':' :: (' ' :: (printVal ind v ++ (printObjTail ind tl ++
          '\n' :: (post ++ ('\x7d' :: rest))))))
      rw [pObj]
      rw [skipWs_append_ws pre _ hpre]
      simp only [keyChars, List.cons_append, List.append_assoc,
        List.nil_append]
      rw [skipWs_cons_neg _ (by decide)]
      cases tl with
      | nil =>
        have hskip : skipWs (printObjTail ind JObj.nil ++
            '\n' :: (post ++ ('\x7d' :: rest))) = '\x7d' :: rest := by
          simp only [printObjTail, List.nil_append]
          rw [skipWs_cons_ws _ (by decide), skipWs_append_ws post _ hpost,
            skipWs_cons_neg _ (by decide)]
        simp [hkey, skipWs_cons_neg _ (show charIsWs ':' = false by decide),
          hv, hskip, strMk_data]
      | cons k2 v2 tl2 =>
        have hskip : skipWs (printObjTail ind (JObj.cons k2 v2 tl2) ++
            '\n' :: (post ++ ('\x7d' :: rest)))
            = ',' :: ('\n' :: (indentChars ind ++ (keyChars k2 ++
                (printVal ind v2 ++ (printObjTail ind tl2 ++
                  '\n' :: (post ++ ('\x7d' :: rest))))))) := by
          simp only [printObjTail, List.cons_append, List.append_assoc]
          rw [skipWs_cons_neg _ (by decide)]
        have hrec := ihO k2 v2 tl2 ind rest ('\n' :: indentChars ind) post
          (by simp only [jwO] at hw ⊢; omega)
          (wsOnly_cons (by decide) (wsOnly_indent ind)) hpost
        simp only [List.cons_append, List.append_assoc, List.nil_append] at hrec
        simp [hkey, skipWs_cons_neg _ (show charIsWs ':' = false by decide),
          hv, hskip, hrec, strMk_data]

mutual
theorem jwV_le_print : ∀ (ind : Nat) (v : JValue),
    jwV v ≤ (printVal ind v).length + 1
  | _, .null => by simp [jwV, printVal]
  | _, .bool b => by cases b <;> simp [jwV, printVal]
  | _, .num m e => by simp only [jwV]; omega
  | _, .str s => by simp only [jwV]; omega
  | _, .arr .nil => by simp [jwV, jwA, printVal]
  | ind, .arr (.cons x tl) => by
    have h1 := jwV_le_print (ind + 1) x
    have h2 := jwA_le_print (ind + 1) tl
    simp only [jwV, jwA, printVal, List.length_cons, List.length_append]
    omega
  | _, .obj .nil => by simp [jwV, jwO, printVal]
  | ind, .obj (.cons k v tl) => by
    have h1 := jwV_le_print (ind + 1) v
    have h2 := jwO_le_print (ind + 1) tl
    simp only [jwV, jwO, printVal, List.length_cons, List.length_append]
    omega
theorem jwA_le_print : ∀ (ind : Nat) (tl : JArr),
    jwA tl ≤ (printArrTail ind tl).length + 2
  | _, .nil => by simp [jwA, printArrTail]
  | ind, .cons y tl => by
    have h1 := jwV_le_print ind y
    have h2 := jwA_le_print ind tl
    simp only [jwA, printArrTail, List.length_cons, List.length_append]
    omega
theorem jwO_le_print : ∀ (ind : Nat) (tl : JObj),
    jwO tl ≤ (printObjTail ind tl).length + 2
  | _, .nil => by simp [jwO, printObjTail]
  | ind, .cons k v tl => by
    have h1 := jwV_le_print ind v
    have h2 := jwO_le_print ind tl
    simp only [jwO, printObjTail, List.length_cons, List.length_append]
    omega
end

/-- Reading back a printed value recovers it exactly. -/
theorem jparse_printVal (v : JValue) :
    jparse (String.mk (printVal 0 v)) = some v := by
  have h := (parse_print_all ((printVal 0 v).length + 1)).1 v 0 [] []
    (jwV_le_print 0 v) wsOnly_nil trivial
  simp only [List.nil_append, List.append_nil] at h
  rw [jparse]
  rw [show (String.mk (printVal 0 v)).data = printVal 0 v from rfl]
  rw [h]
  simp [skipWs]

/-- Round trip of the GeoJSON writer: parsing the written document yields
the deep key sort of the dumped value. -/
theorem save_geojson_roundtrip (v : JValue) :
    jparse (save_geojson v) = some (sortDeepV v) := by
  rw [save_geojson]
  exact jparse_printVal (sortDeepV v)

/-! ### Key sorting is idempotent (canonical forms) -/

theorem strLt_false_trans {a b c : String} (hab : strLt a b = false)
    (hbc : strLt b c = false) : strLt a c = false := by
  by_cases h : strLt a c = true
  · by_cases hba : strLt b a = true
    · have hx := strLt_trans hba h
      rw [hx] at hbc
      simp at hbc
    · have hba2 : strLt b a = false := by
        cases hx : strLt b a
        · rfl
        · exact absurd hx hba
      have heq : a = b := strLt_total_eq hab hba2
      rw [heq] at h
      rw [h] at hbc
      simp at hbc
  · cases hx : strLt a c
    · rfl
    · exact absurd hx h

/-- All keys of an object are at least `k` (no key is strictly below it). -/
def ObjLeAll (k : String) : JObj → Prop
  | .nil => True
  | .cons k2 _ tl => strLt k2 k = false ∧ ObjLeAll k tl

/-- Entries sorted by key (every head key is a lower bound of its tail). -/
def SortedO : JObj → Prop
  | .nil => True
  | .cons k _ tl => ObjLeAll k tl ∧ SortedO tl

theorem ObjLeAll_mono : ∀ {k2 k : String} (tl : JObj),
    ObjLeAll k2 tl → strLt k2 k = false → ObjLeAll k tl
  | _, _, .nil, _, _ => trivial
  | k2, k, .cons k3 v3 tl, h, hk =>
    ⟨strLt_false_trans h.1 hk, ObjLeAll_mono tl h.2 hk⟩

theorem ObjLeAll_insert : ∀ {k0 k : String} {v : JValue} (o : JObj),
    ObjLeAll k0 o → strLt k k0 = false → ObjLeAll k0 (insertObj k v o)
  | _, _, _, .nil, _, hk => ⟨hk, trivial⟩
  | k0, k, v, .cons k2 v2 tl, h, hk => by
    by_cases hlt : strLt k2 k = true
    · rw [insertObj, if_pos hlt]
      exact ⟨h.1, ObjLeAll_insert tl h.2 hk⟩
    · rw [insertObj, if_neg hlt]
      exact ⟨hk, h.1, h.2⟩

theorem insertObj_sorted : ∀ {k : String} {v : JValue} (o : JObj),
    SortedO o → SortedO (insertObj k v o)
  | _, _, .nil, _ => ⟨trivial, trivial⟩
  | k, v, .cons k2 v2 tl, h => by
    by_cases hlt : strLt k2 k = true
    · rw [insertObj, if_pos hlt]
      exact ⟨ObjLeAll_insert tl h.1 (strLt_asymm hlt), insertObj_sorted tl h.2⟩
    · have hlt2 : strLt k2 k = false := by
        cases hx : strLt k2 k
        · rfl
        · exact absurd hx hlt
      rw [insertObj, if_neg hlt]
      exact ⟨⟨hlt2, ObjLeAll_mono tl h.1 hlt2⟩, h.1, h.2⟩

theorem sortObj_sorted : ∀ o : JObj, SortedO (sortObj o)
  | .nil => trivial
  | .cons k v tl => by
    rw [sortObj]
    exact insertObj_sorted (sortObj tl) (sortObj_sorted tl)

theorem insertObj_of_le {k : String} {v : JValue} {o : JObj}
    (h : ObjLeAll k o) : insertObj k v o = .cons k v o := by
  cases o with
  | nil => rfl
  | cons k2 v2 tl =>
    rw [insertObj, if_neg (by rw [h.1]; exact Bool.false_ne_true)]

theorem sortObj_of_sorted : ∀ {o : JObj}, SortedO o → sortObj o = o
  | .nil, _ => rfl
  | .cons k v tl, h => by
    rw [sortObj, sortObj_of_sorted h.2, insertObj_of_le h.1]

theorem sortObj_idem (o : JObj) : sortObj (sortObj o) = sortObj o :=
  sortObj_of_sorted (sortObj_sorted o)

theorem sortDeepO_insertObj (k : String) (v : JValue) :
    ∀ o : JObj, sortDeepO (insertObj k v o)
      = insertObj k (sortDeepV v) (sortDeepO o)
  | .nil => rfl
  | .cons k2 v2 tl => by
    by_cases hlt : strLt k2 k = true
    · simp only [insertObj, sortDeepO, hlt, if_true]
      rw [sortDeepO_insertObj k v tl]
    · have hlt2 : strLt k2 k = false := by
        cases hx : strLt k2 k
        · rfl
        · exact absurd hx hlt
      simp only [insertObj, sortDeepO, hlt2]
      simp

theorem sortDeepO_sortObj : ∀ o : JObj,
    sortDeepO (sortObj o) = sortObj (sortDeepO o)
  | .nil => rfl
  | .cons k v tl => by
    rw [sortObj, sortDeepO_insertObj, sortDeepO_sortObj tl, sortDeepO, sortObj]

mutual
theorem sortDeepV_idem : ∀ v : JValue, sortDeepV (sortDeepV v) = sortDeepV v
  | .null => rfl
  | .bool b => rfl
  | .num m e => rfl
  | .str s => rfl
  | .arr xs => by rw [sortDeepV, sortDeepV, sortDeepA_idem xs]
  | .obj kvs => by
    rw [sortDeepV, sortDeepV, sortDeepO_sortObj, sortDeepO_idem kvs,
      sortObj_idem]
theorem sortDeepA_idem : ∀ xs : JArr, sortDeepA (sortDeepA xs) = sortDeepA xs
  | .nil => rfl
  | .cons x tl => by rw [sortDeepA, sortDeepA, sortDeepV_idem x,
      sortDeepA_idem tl]
theorem sortDeepO_idem : ∀ kvs : JObj, sortDeepO (sortDeepO kvs) = sortDeepO kvs
  | .nil => rfl
  | .cons k v tl => by rw [sortDeepO, sortDeepO, sortDeepV_idem v,
      sortDeepO_idem tl]
end

/-! ### The repository embedding: constants and rows -/

/-- Icon base URL shared by the three scripts. -/
def url : String :=
  "https://raw.githubusercontent.com/ocefpaf/secoora_assets_map/gh-pages/secoora_icons/"

/-- The `status_colors` dict, identical in the three scripts. -/
def status_colors : List (String × String) :=
  [("Planned", "orange"), ("Operational", "green"), ("Permitting", "yellow"),
   ("Construction", "yellow")]

/-- The `platforms_icons` dict of `data_frame2gis.py`. The copy in
`stations_geojson.py` lacks the HFRadar entry only; the station builder
never looks that key up, so one table serves both. -/
def platforms_icons : List (String × String) :=
  [("Fixed Surface Buoy", "buoy"), ("Fixed Bottom Station", "circ"),
   ("Fixed Bottom Mount Mooring", "tri"),
   ("Fixed Coastal Station", "shore_station"), ("HFRadar", "hfradar")]

/-- The `ranges` dict: radar range in km per MHz band. -/
def ranges : List (Int × Nat) :=
  [(5, 190), (8, 160), (12, 130), (16, 100)]

/-- The `icon` template `url + "{platform}-{status}.png"`. The scripts
always pass the mapped icon name as `platform` and the mapped color as
`status`. -/
def icon (platform status : String) : String :=
  url ++ platform ++ "-" ++ status ++ ".png"

/-- One row of the HF-radar spreadsheet. `name` is the dataframe index (the
abbreviated id column), which is what `iterrows` yields as the row name.
`MHz` is an integer band (the script applies `int` to the cell). Numeric
cells are exact fractions. -/
structure RadarRow where
  name : String
  DisplayTitle : String
  MHz : Int
  Status : String
  StartAngle : Frac
  SpreadAngle : Frac
  Longitude : Frac
  Latitude : Frac
deriving DecidableEq

/-- One row of the stations spreadsheet. -/
structure StationRow where
  Name : String
  PlatformType : String
  Status : String
  Longitude : Frac
  Latitude : Frac
  LocationDescription : String
deriving DecidableEq

/-- GeoJSON geometries produced by the scripts. -/
inductive Geometry where
  | Point (coordinates : List Frac)
  | Polygon (coordinates : List (List (Frac × Frac)))
deriving DecidableEq

/-- The `type` tag of a geometry, as compared by the shapefile writer. -/
def Geometry.type : Geometry → String
  | .Point _ => "Point"
  | .Polygon _ => "Polygon"

/-- A GeoJSON feature: a geometry and its properties dict. -/
structure Feature where
  geometry : Geometry
  properties : List (String × JValue)
deriving DecidableEq

/-- A GeoJSON feature collection. -/
structure FeatureCollection where
  features : List Feature
deriving DecidableEq

/-! ### The wedge geometry -/

/-- The transcendental ingredients of the matplotlib arc construction,
abstracted: `circPt a` stands for the unit-circle point at `a` degrees and
`ctrlA a b`, `ctrlB a b` for the two inner cubic Bezier control points of
the arc segment from `a` to `b`. These values have no exact rational form;
every statement below holds for an arbitrary interpretation. -/
structure ArcModel where
  circPt : Frac → Frac × Frac
  ctrlA : Frac → Frac → Frac × Frac
  ctrlB : Frac → Frac → Frac × Frac

/-- The data the matplotlib `Wedge` patch stores: center, radius and the two
angle bounds, in the order of the `Wedge(center, r, theta1, theta2)` call. -/
structure WedgePatch where
  center : Frac × Frac
  r : Frac
  theta1 : Frac
  theta2 : Frac
deriving DecidableEq

/-- Modelled from the spec: the `Wedge` constructor fails with `ValueError`
exactly when the angle bounds are degenerate, that is when the two bounds
coincide (for the call of `wedge` below: spread angle 0). -/
def mplWedge (center : Frac × Frac) (r theta1 theta2 : Frac) :
    Option WedgePatch :=
  if feq theta1 theta2 then none else some ⟨center, r, theta1, theta2⟩

/-- The `wedge` helper of `data_frame2gis.py` and `hfradar_geojson.py`:
look up the range for the band (`KeyError` on an unknown band, not caught),
convert km to degrees dividing by 111.1, and build
`Wedge(center, r, theta1 + theta2, theta1)`; a `ValueError` from the
constructor is caught and turned into `None`. -/
def wedge (row : RadarRow) : Except String (Option WedgePatch) :=
  match ranges.lookup row.MHz with
  | none => .error ("KeyError: " ++ toString row.MHz)
  | some rng =>
    let r := fdiv ⟨Int.ofNat rng, 1⟩ ⟨1111, 10⟩
    let theta1 := row.StartAngle
    let theta2 := row.SpreadAngle
    let center := (row.Longitude, row.Latitude)
    .ok (mplWedge center r (fadd theta1 theta2) theta1)

/-- Non-strict value comparison of fractions with positive denominators. -/
def fle (a b : Frac) : Bool :=
  if 0 ≤ a.den * b.den then a.num * b.den ≤ b.num * a.den
  else b.num * a.den ≤ a.num * b.den

/-- Modelled from the spec and the matplotlib arc construction: the angle
span is normalized into a single turn, the arc is approximated by
`2 ^ (ceiling of span / 90)` cubic Bezier segments over an equally spaced
degree grid, and the vertex list is the grid start point followed by three
vertices per segment (two control points and the segment end point). -/
def arcVertices (A : ArcModel) (t1 t2 : Frac) : List (Frac × Frac) :=
  let eta1 := t1
  let eta2a := fsub t2 (fmul ⟨360, 1⟩ ⟨ffloor (fdiv (fsub t2 t1) ⟨360, 1⟩), 1⟩)
  let eta2 := if feq t2 t1 = false && fle eta2a eta1
    then fadd eta2a ⟨360, 1⟩ else eta2a
  let n := 2 ^ (fceil (fdiv (fsub eta2 eta1) ⟨90, 1⟩)).toNat
  let step := fun (j : Nat) =>
    fadd eta1 (fdiv (fmul (fsub eta2 eta1) ⟨Int.ofNat j, 1⟩) ⟨Int.ofNat n, 1⟩)
  A.circPt eta1 :: (List.range n).flatMap (fun i =>
    [A.ctrlA (step i) (step (i + 1)), A.ctrlB (step i) (step (i + 1)),
     A.circPt (step (i + 1))])

/-- The path vertices of a wedge patch with no width, modelled from the
matplotlib source: the arc vertices, the center, the first arc vertex and
the center again, scaled by the radius and shifted to the center. Bounds
exactly one full turn apart use the 0 to 360 arc. -/
def wedgePathVertices (A : ArcModel) (w : WedgePatch) : List (Frac × Frac) :=
  let b := if feq (fsub w.theta2 w.theta1) ⟨360, 1⟩
    then ((⟨0, 1⟩ : Frac), (⟨360, 1⟩ : Frac)) else (w.theta1, w.theta2)
  let v1 := arcVertices A b.1 b.2
  let h := v1.headD (⟨0, 1⟩, ⟨0, 1⟩)
  (v1 ++ [(⟨0, 1⟩, ⟨0, 1⟩), h, (⟨0, 1⟩, ⟨0, 1⟩)]).map
    (fun p => (fadd (fmul p.1 w.r) w.center.1, fadd (fmul p.2 w.r) w.center.2))

/-- `mpl_patch2geo_polygon`: close the path of the patch into a GeoJSON
polygon by appending the second-to-last vertex of the open boundary. The
argument is the vertex list of the path of the patch
(`patch.get_path().vertices.tolist()`). -/
def mpl_patch2geo_polygon (vertices : List (Frac × Frac)) : Geometry :=
  .Polygon [vertices ++ [vertices.getD (vertices.length - 2) (⟨0, 1⟩, ⟨0, 1⟩)]]

/-! ### Grouping

`DataFrame.groupby` iterates groups in ascending key order (`sort=True` is
the default) and keeps the original row order inside each group. -/

/-- Insert a key into a sorted list of distinct keys. -/
def insortKey {K : Type} [DecidableEq K] (lt : K → K → Bool) (k : K) :
    List K → List K
  | [] => [k]
  | k2 :: ks =>
    if k = k2 then k2 :: ks
    else if lt k k2 then k :: k2 :: ks
    else k2 :: insortKey lt k ks

/-- The sorted distinct key values of a table. -/
def groupKeys {R K : Type} [DecidableEq K] (lt : K → K → Bool) (key : R → K)
    (rows : List R) : List K :=
  rows.foldr (fun r ks => insortKey lt (key r) ks) []

/-- All rows of a table in groupby iteration order: group by group in
ascending key order, inside a group in input order. -/
def rowsInOrder {R K : Type} [DecidableEq K] (lt : K → K → Bool) (key : R → K)
    (rows : List R) : List R :=
  (groupKeys lt key rows).flatMap (fun k => rows.filter (fun r => key r = k))

/-- Ascending order on status labels (Python string order). -/
def pairLt (a b : String × String) : Bool :=
  strLt a.1 b.1 || (a.1 = b.1 && strLt a.2 b.2)

/-! ### The station feature builder

`parse_stations` of `data_frame2gis.py`; `df2features` of
`stations_geojson.py` is the same function line for line (with the four
entry icon dict, equal on every key the builder can look up). -/

/-- Properties dict of one station feature. -/
def station_properties (row : StationRow) (color picon : String) :
    List (String × JValue) :=
  [("icon", .str (icon picon color)), ("name", .str row.Name),
   ("popupContent", .str row.LocationDescription)]

/-- The features of one `(PlatformType, Status)` group. -/
def station_group (rows : List StationRow) (color picon : String) :
    List Feature :=
  rows.map (fun r => ⟨Geometry.Point [r.Longitude, r.Latitude],
    station_properties r color picon⟩)

/-- Loop of `parse_stations` over the sorted group keys: resolve the color
and the icon of the group (`KeyError` aborts the run) and emit one point
feature per row. -/
def parse_stations_go (df : List StationRow) :
    List (String × String) → Except String (List Feature)
  | [] => .ok []
  | (p, s) :: ks =>
    match status_colors.lookup s with
    | none => .error ("KeyError: " ++ s)
    | some color =>
      match platforms_icons.lookup p with
      | none => .error ("KeyError: " ++ p)
      | some picon =>
        match parse_stations_go df ks with
        | .error e => .error e
        | .ok rest =>
          .ok (station_group
            (df.filter (fun r => (r.PlatformType, r.Status) = (p, s)))
            color picon ++ rest)

/-- `parse_stations`: group the station table by `(PlatformType, Status)`
and collect one point feature per row into a feature collection. -/
def parse_stations (df : List StationRow) : Except String FeatureCollection :=
  match parse_stations_go df
      (groupKeys pairLt (fun r => (r.PlatformType, r.Status)) df) with
  | .error e => .error e
  | .ok fs => .ok ⟨fs⟩

/-! ### The radar feature builder

`parse_hfradar` of `data_frame2gis.py`; `df2features` of
`hfradar_geojson.py` is the same function with the `hfradar` icon name
inlined into the template, producing identical features. -/

/-- Default styling dict attached to every radar polygon feature. -/
def radar_defaults : List (String × JValue) :=
  [("stroke", .str "#aeccae"), ("stroke_width", .num 1 0),
   ("stroke_opacity", .num 5 1), ("fill", .str "#deffde"),
   ("fill_opacity", .num 25 2)]

/-- Python `dict.update`: existing keys keep their position and take the
new value, new keys are appended in order. -/
def dictUpdate (d upd : List (String × JValue)) : List (String × JValue) :=
  d.map (fun p =>
    match upd.lookup p.1 with
    | some v => (p.1, v)
    | none => p) ++
  upd.filter (fun p => (d.lookup p.1).isNone)

/-- The popup text of a radar point feature. -/
def radar_popup (row : RadarRow) : String :=
  row.DisplayTitle ++ " (" ++ toString row.MHz ++ " MHz)"

/-- Properties dict of one radar point feature. -/
def radar_point_properties (row : RadarRow) (color : String) :
    List (String × JValue) :=
  [("icon", .str (icon "hfradar" color)), ("name", .str row.name),
   ("popupContent", .str (radar_popup row))]

/-- Loop body of `parse_hfradar` over the rows of one status group. The
`polygon` local of the Python loop lives for the whole function call, so it
is threaded through as `st`: a row whose wedge construction fails reuses the
most recent polygon, and if no polygon has been built yet the reference to
the unassigned local raises. The point and the polygon feature of a row are
appended unconditionally. -/
def parse_hfradar_rows (A : ArcModel) (color : String)
    (defaults : List (String × JValue)) :
    Option Geometry → List RadarRow →
      Except String (List Feature × List Feature × Option Geometry)
  | st, [] => .ok ([], [], st)
  | st, row :: rest =>
    match wedge row with
    | .error e => .error e
    | .ok patch =>
      let poly : Option Geometry :=
        match patch with
        | some w => some (mpl_patch2geo_polygon (wedgePathVertices A w))
        | none => st
      match poly with
      | none => .error "UnboundLocalError: polygon"
      | some pg =>
        match parse_hfradar_rows A color defaults (some pg) rest with
        | .error e => .error e
        | .ok (pts, pls, st2) =>
          .ok (⟨Geometry.Point [row.Longitude, row.Latitude],
              radar_point_properties row color⟩ :: pts,
            ⟨pg, defaults⟩ :: pls, st2)

/-- Loop of `parse_hfradar` over the sorted status groups. -/
def parse_hfradar_go (A : ArcModel) (defaults : List (String × JValue))
    (df : List RadarRow) :
    Option Geometry → List String →
      Except String (List Feature × List Feature)
  | _, [] => .ok ([], [])
  | st, s :: ks =>
    match status_colors.lookup s with
    | none => .error ("KeyError: " ++ s)
    | some color =>
      match parse_hfradar_rows A color defaults st
          (df.filter (fun r => r.Status = s)) with
      | .error e => .error e
      | .ok (pts, pls, st2) =>
        match parse_hfradar_go A defaults df st2 ks with
        | .error e => .error e
        | .ok (pts2, pls2) => .ok (pts ++ pts2, pls ++ pls2)

/-- `parse_hfradar`: group the radar table by status, emit one point
feature per row and append a polygon feature per row, then return the
points followed by the polygons. `kw` are the caller overrides merged into
the default polygon styling. -/
def parse_hfradar (A : ArcModel) (df : List RadarRow)
    (kw : List (String × JValue)) : Except String FeatureCollection :=
  match parse_hfradar_go A (dictUpdate radar_defaults kw) df none
      (groupKeys strLt (fun r => r.Status) df) with
  | .error e => .error e
  | .ok (pts, pls) => .ok ⟨pts ++ pls⟩

/-! ### Shapefile writers -/

/-- One record written by the shapefile writers: the geometry and the
single `name` attribute of the `str:80` schema. -/
structure ShpRecord where
  geometry : Geometry
  name : String
deriving DecidableEq

/-- Modelled from the spec for the fiona driver: a value written into the
`str:80` field is stored as its string form capped at the declared 80
characters; a string property is stored as-is, any other value by its
printed text. -/
def fieldString (v : JValue) : String :=
  match v with
  | .str s => s
  | v2 => String.mk (printVal 0 v2)

/-- The `name` attribute of the feature at 0-based position `k`: the `name`
property when present, otherwise the position (the `except KeyError`
fallback of `save_shapefile`). -/
def shpName (props : List (String × JValue)) (k : Nat) : String :=
  match props.lookup "name" with
  | some v => fieldString v
  | none => toString k

/-- `save_shapefile` of `data_frame2gis.py` (and the identical writer of
`hfradar_geojson.py`): write the features whose geometry type equals the
target `geometry`, each with only the name attribute, falling back to the
positional index when the name is missing. -/
def save_shapefile (geojson : FeatureCollection) (geometry : String) :
    List ShpRecord :=
  geojson.features.enum.filterMap (fun p =>
    if p.2.geometry.type = geometry then
      some ⟨p.2.geometry, String.mk ((shpName p.2.properties p.1).data.take 80)⟩
    else none)

/-- Loop of the `save_shapefile` of `stations_geojson.py`: no geometry
filter and no fallback, `feature.properties.name` is read directly and a
missing key raises. -/
def stations_save_shapefile_go : List Feature → Except String (List ShpRecord)
  | [] => .ok []
  | f :: fs =>
    match f.properties.lookup "name" with
    | none => .error "KeyError: name"
    | some v =>
      match stations_save_shapefile_go fs with
      | .error e => .error e
      | .ok rs => .ok (⟨f.geometry, String.mk ((fieldString v).data.take 80)⟩ :: rs)

/-- `save_shapefile` of `stations_geojson.py`. -/
def stations_save_shapefile (geojson : FeatureCollection) :
    Except String (List ShpRecord) :=
  stations_save_shapefile_go geojson.features

/-! ### The feature collection as a JSON value

The `geojson` library objects implement the JSON mapping written by
`json.dump`; coordinates are Python floats, whose repr is a finite decimal.
`fracToNum` converts an exact fraction to that decimal when one exists
(`none` otherwise, values outside the float-repr fragment). -/

/-- Strip a prime factor, returning the multiplicity and the cofactor. -/
def stripFactor (p : Nat) : Nat → Nat → Nat × Nat
  | 0, d => (0, d)
  | f + 1, d =>
    if d % p = 0 ∧ 0 < d ∧ 2 ≤ p then
      let q := stripFactor p f (d / p)
      (q.1 + 1, q.2)
    else (0, d)

/-- Exact decimal form `m / 10 ^ e` of a fraction, when one exists. -/
def fracToNum (q : Frac) : Option JValue :=
  if q.den = 0 then none
  else
    let n : Int := if q.den < 0 then -q.num else q.num
    let d : Nat := q.den.natAbs
    let g := Nat.gcd n.natAbs d
    let d2 := d / g
    let n2 : Int := n / (g : Int)
    let a := (stripFactor 2 d2 d2).1
    let d3 := (stripFactor 2 d2 d2).2
    let b := (stripFactor 5 d3 d3).1
    let d4 := (stripFactor 5 d3 d3).2
    if d4 = 1 then
      let e := max a b
      some (.num (n2 * ((10 ^ e) / d2 : Nat)) e)
    else none

/-- JSON form of one coordinate pair. -/
def fracPairJson (p : Frac × Frac) : Option JValue :=
  match fracToNum p.1, fracToNum p.2 with
  | some a, some b => some (.arr (jarr [a, b]))
  | _, _ => none

/-- JSON form of a geometry. -/
def geometryJson : Geometry → Option JValue
  | .Point cs =>
    match cs.mapM fracToNum with
    | some vs => some (.obj (jobj [("type", .str "Point"),
        ("coordinates", .arr (jarr vs))]))
    | none => none
  | .Polygon rings =>
    match rings.mapM (fun ring =>
        (ring.mapM fracPairJson).map (fun vs => JValue.arr (jarr vs))) with
    | some rs => some (.obj (jobj [("type", .str "Polygon"),
        ("coordinates", .arr (jarr rs))]))
    | none => none

/-- JSON form of a feature. -/
def featureJson (f : Feature) : Option JValue :=
  (geometryJson f.geometry).map (fun g =>
    JValue.obj (jobj [("type", .str "Feature"), ("geometry", g),
      ("properties", .obj (jobj f.properties))]))

/-- JSON form of a feature collection, the value handed to `json.dump`. -/
def fcJson (fc : FeatureCollection) : Option JValue :=
  (fc.features.mapM featureJson).map (fun fs =>
    JValue.obj (jobj [("type", .str "FeatureCollection"),
      ("features", .arr (jarr fs))]))

/-! ### Grouping lemmas -/

instance {ε α : Type} [DecidableEq ε] [DecidableEq α] :
    DecidableEq (Except ε α) := fun a b =>
  match a, b with
  | .error e1, .error e2 =>
    if h : e1 = e2 then .isTrue (congrArg Except.error h)
    else .isFalse (fun hx => h (Except.error.inj hx))
  | .ok x, .ok y =>
    if h : x = y then .isTrue (congrArg Except.ok h)
    else .isFalse (fun hx => h (Except.ok.inj hx))
  | .error _, .ok _ => .isFalse (fun hx => Except.noConfusion hx)
  | .ok _, .error _ => .isFalse (fun hx => Except.noConfusion hx)

theorem strLt_total (a b : String) :
    a = b ∨ strLt a b = true ∨ strLt b a = true := by
  cases h1 : strLt a b
  · cases h2 : strLt b a
    · exact Or.inl (strLt_total_eq h1 h2)
    · exact Or.inr (Or.inr rfl)
  · exact Or.inr (Or.inl rfl)

theorem pairLt_irrefl (a : String × String) : pairLt a a = false := by
  simp [pairLt, strLt_irrefl]

theorem pairLt_trans {a b c : String × String} (h1 : pairLt a b = true)
    (h2 : pairLt b c = true) : pairLt a c = true := by
  simp only [pairLt, Bool.or_eq_true, Bool.and_eq_true,
    decide_eq_true_eq] at h1 h2 ⊢
  rcases h1 with h1 | ⟨h1e, h1s⟩
  · rcases h2 with h2 | ⟨h2e, h2s⟩
    · exact Or.inl (strLt_trans h1 h2)
    · rw [← h2e]
      exact Or.inl h1
  · rcases h2 with h2 | ⟨h2e, h2s⟩
    · rw [h1e]
      exact Or.inl h2
    · exact Or.inr ⟨h1e.trans h2e, strLt_trans h1s h2s⟩

theorem pairLt_total (a b : String × String) :
    a = b ∨ pairLt a b = true ∨ pairLt b a = true := by
  rcases strLt_total a.1 b.1 with h1 | h1 | h1
  · rcases strLt_total a.2 b.2 with h2 | h2 | h2
    · exact Or.inl (Prod.ext h1 h2)
    · refine Or.inr (Or.inl ?_)
      simp [pairLt, h1, h2]
    · refine Or.inr (Or.inr ?_)
      simp [pairLt, h1.symm, h2]
  · refine Or.inr (Or.inl ?_)
    simp [pairLt, h1]
  · refine Or.inr (Or.inr ?_)
    simp [pairLt, h1]

theorem mem_insortKey {K : Type} [DecidableEq K] (lt : K → K → Bool)
    (k a : K) : ∀ ks : List K, (a ∈ insortKey lt k ks ↔ a = k ∨ a ∈ ks)
  | [] => by simp [insortKey]
  | k2 :: ks => by
    by_cases h1 : k = k2
    · subst h1
      rw [insortKey, if_pos rfl]
      simp only [List.mem_cons]
      tauto
    · by_cases h2 : lt k k2 = true
      · rw [insortKey, if_neg h1, if_pos h2]
        simp only [List.mem_cons]
      · rw [insortKey, if_neg h1, if_neg h2]
        simp only [List.mem_cons, mem_insortKey lt k a ks]
        tauto

theorem insortKey_pairwise {K : Type} [DecidableEq K] {lt : K → K → Bool}
    (htot : ∀ a b, a = b ∨ lt a b = true ∨ lt b a = true)
    (htr : ∀ a b c, lt a b = true → lt b c = true → lt a c = true)
    (k : K) : ∀ ks : List K, List.Pairwise (fun a b => lt a b = true) ks →
      List.Pairwise (fun a b => lt a b = true) (insortKey lt k ks)
  | [], _ => by simp [insortKey]
  | k2 :: ks, h => by
    obtain ⟨hhead, htail⟩ := List.pairwise_cons.mp h
    by_cases h1 : k = k2
    · subst h1
      simpa [insortKey] using h
    · by_cases h2 : lt k k2 = true
      · rw [insortKey, if_neg h1, if_pos h2]
        refine List.pairwise_cons.mpr ⟨?_, h⟩
        intro b hb
        rcases List.mem_cons.mp hb with hb | hb
        · rw [hb]; exact h2
        · exact htr k k2 b h2 (hhead b hb)
      · rw [insortKey, if_neg h1, if_neg h2]
        refine List.pairwise_cons.mpr ⟨?_, insortKey_pairwise htot htr k ks htail⟩
        intro b hb
        rcases (mem_insortKey lt k b ks).mp hb with hb | hb
        · rw [hb]
          rcases htot k2 k with hx | hx | hx
          · exact absurd hx.symm h1
          · exact hx
          · exact absurd hx h2
        · exact hhead b hb

theorem groupKeys_pairwise {R K : Type} [DecidableEq K] {lt : K → K → Bool}
    (htot : ∀ a b, a = b ∨ lt a b = true ∨ lt b a = true)
    (htr : ∀ a b c, lt a b = true → lt b c = true → lt a c = true)
    (key : R → K) : ∀ rows : List R,
      List.Pairwise (fun a b => lt a b = true) (groupKeys lt key rows)
  | [] => by simp [groupKeys]
  | r :: rows => by
    rw [groupKeys, List.foldr_cons]
    exact insortKey_pairwise htot htr (key r) _
      (groupKeys_pairwise htot htr key rows)

theorem mem_groupKeys {R K : Type} [DecidableEq K] (lt : K → K → Bool)
    (key : R → K) (a : K) : ∀ rows : List R,
      (a ∈ groupKeys lt key rows ↔ ∃ r ∈ rows, key r = a)
  | [] => by simp [groupKeys]
  | r :: rows => by
    rw [groupKeys, List.foldr_cons]
    rw [mem_insortKey]
    rw [show (List.foldr (fun r ks => insortKey lt (key r) ks) [] rows)
      = groupKeys lt key rows from rfl]
    rw [mem_groupKeys lt key a rows]
    constructor
    · intro h
      rcases h with h | ⟨r2, hr2, hk⟩
      · exact ⟨r, List.mem_cons_self r rows, h.symm⟩
      · exact ⟨r2, List.mem_cons_of_mem r hr2, hk⟩
    · intro ⟨r2, hr2, hk⟩
      rcases List.mem_cons.mp hr2 with h | h
      · rw [h] at hk
        exact Or.inl hk.symm
      · exact Or.inr ⟨r2, h, hk⟩

theorem groupKeys_nodup {R K : Type} [DecidableEq K] {lt : K → K → Bool}
    (htot : ∀ a b, a = b ∨ lt a b = true ∨ lt b a = true)
    (htr : ∀ a b c, lt a b = true → lt b c = true → lt a c = true)
    (hirr : ∀ a, lt a a = false)
    (key : R → K) (rows : List R) : (groupKeys lt key rows).Nodup := by
  have h := groupKeys_pairwise htot htr key rows
  refine h.imp ?_
  intro a b hab heq
  rw [heq] at hab
  rw [hirr b] at hab
  simp at hab

theorem flatMap_congr_mem {α β : Type} {l : List α} {f g : α → List β}
    (h : ∀ a ∈ l, f a = g a) : l.flatMap f = l.flatMap g := by
  induction l with
  | nil => rfl
  | cons a t ih =>
    rw [List.flatMap_cons, List.flatMap_cons,
      h a (List.mem_cons_self a t),
      ih (fun b hb => h b (List.mem_cons_of_mem a hb))]

theorem flatMap_filter_perm {R K : Type} [DecidableEq K] (key : R → K) :
    ∀ (ks : List K) (rows : List R), ks.Nodup →
      (∀ r ∈ rows, key r ∈ ks) →
      (ks.flatMap (fun k => rows.filter (fun r => key r = k))).Perm rows
  | [], rows, _, hcov => by
    have hnil : rows = [] := by
      cases rows with
      | nil => rfl
      | cons r rs => exact absurd (hcov r (List.mem_cons_self r rs)) (by simp)
    rw [hnil]
    simp
  | k :: ks, rows, hnd, hcov => by
    rw [List.flatMap_cons]
    have hknotin : k ∉ ks := (List.nodup_cons.mp hnd).1
    have hndk : ks.Nodup := (List.nodup_cons.mp hnd).2
    have hrw : ks.flatMap (fun k2 => rows.filter (fun r => key r = k2))
        = ks.flatMap (fun k2 =>
            (rows.filter (fun r => !(decide (key r = k)))).filter
              (fun r => key r = k2)) := by
      apply flatMap_congr_mem
      intro k2 hk2
      have hne : k2 ≠ k := fun he => hknotin (he ▸ hk2)
      rw [List.filter_filter]
      apply List.filter_congr
      intro r _
      by_cases hr : key r = k2
      · have : ¬ key r = k := fun he => hne (hr.symm.trans he)
        simp [hr, this, hne]
      · simp [hr]
    rw [hrw]
    have ihp := flatMap_filter_perm key ks
      (rows.filter (fun r => !(decide (key r = k)))) hndk
      (by
        intro r hr
        have h1 := (List.mem_filter.mp hr).1
        have h2 := (List.mem_filter.mp hr).2
        have h3 : ¬ key r = k := by
          intro he
          rw [he] at h2
          simp at h2
        rcases List.mem_cons.mp (hcov r h1) with h | h
        · exact absurd h h3
        · exact h)
    exact (List.Perm.append_left _ ihp).trans
      (List.filter_append_perm (fun r => decide (key r = k)) rows)

theorem ite_flatMap_nodup {K α : Type} [DecidableEq K] (k : K) (X : List α) :
    ∀ ks : List K, ks.Nodup →
      (ks.flatMap (fun k2 => if k2 = k then X else []))
        = if k ∈ ks then X else [] := by
  intro ks
  induction ks with
  | nil => intro _; simp
  | cons k2 ks ih =>
    intro hnd
    rw [List.flatMap_cons, ih (List.nodup_cons.mp hnd).2]
    by_cases h : k2 = k
    · subst h
      have : k2 ∉ ks := (List.nodup_cons.mp hnd).1
      simp [this]
    · have hmemiff : (k ∈ k2 :: ks) ↔ (k ∈ ks) := by
        rw [List.mem_cons]
        constructor
        · intro hx
          rcases hx with hx | hx
          · exact absurd hx.symm h
          · exact hx
        · intro hx
          exact Or.inr hx
      rw [if_neg h, List.nil_append, if_congr hmemiff rfl rfl]

theorem rowsInOrder_filter {R K : Type} [DecidableEq K] {lt : K → K → Bool}
    (htot : ∀ a b, a = b ∨ lt a b = true ∨ lt b a = true)
    (htr : ∀ a b c, lt a b = true → lt b c = true → lt a c = true)
    (hirr : ∀ a, lt a a = false)
    (key : R → K) (rows : List R) (k : K) :
    (rowsInOrder lt key rows).filter (fun r => key r = k)
      = rows.filter (fun r => key r = k) := by
  rw [rowsInOrder, List.filter_flatMap]
  have hrw : (groupKeys lt key rows).flatMap
        (fun k2 => (rows.filter (fun r => key r = k2)).filter
          (fun r => key r = k))
      = (groupKeys lt key rows).flatMap
        (fun k2 => if k2 = k then rows.filter (fun r => key r = k) else []) := by
    apply flatMap_congr_mem
    intro k2 _
    by_cases h : k2 = k
    · subst h
      rw [if_pos rfl, List.filter_filter]
      apply List.filter_congr
      intro r _
      by_cases hr : key r = k2 <;> simp [hr]
    · rw [if_neg h]
      rw [List.filter_eq_nil_iff]
      intro r hr
      have := List.of_mem_filter hr
      simp only [decide_eq_true_eq] at this
      simp [this, h]
  rw [hrw, ite_flatMap_nodup k _ _ (groupKeys_nodup htot htr hirr key rows)]
  by_cases hmem : k ∈ groupKeys lt key rows
  · rw [if_pos hmem]
  · rw [if_neg hmem, eq_comm, List.filter_eq_nil_iff]
    intro r hr
    intro hk
    simp only [decide_eq_true_eq] at hk
    exact hmem ((mem_groupKeys lt key k rows).mpr ⟨r, hr, hk⟩)

theorem rowsInOrder_perm {R K : Type} [DecidableEq K] {lt : K → K → Bool}
    (htot : ∀ a b, a = b ∨ lt a b = true ∨ lt b a = true)
    (htr : ∀ a b c, lt a b = true → lt b c = true → lt a c = true)
    (hirr : ∀ a, lt a a = false)
    (key : R → K) (rows : List R) :
    (rowsInOrder lt key rows).Perm rows :=
  flatMap_filter_perm key _ rows (groupKeys_nodup htot htr hirr key rows)
    (fun r hr => (mem_groupKeys lt key (key r) rows).mpr ⟨r, hr, rfl⟩)

theorem rowsInOrder_sorted {R K : Type} [DecidableEq K] {lt : K → K → Bool}
    (htot : ∀ a b, a = b ∨ lt a b = true ∨ lt b a = true)
    (htr : ∀ a b c, lt a b = true → lt b c = true → lt a c = true)
    (key : R → K) (rows : List R) :
    List.Pairwise (fun a b => lt (key a) (key b) = true ∨ key a = key b)
      (rowsInOrder lt key rows) := by
  rw [rowsInOrder]
  have hks := groupKeys_pairwise htot htr key rows
  revert hks
  generalize groupKeys lt key rows = ks
  induction ks with
  | nil => intro _; simp
  | cons k ks ih =>
    intro hks
    rw [List.flatMap_cons]
    rw [List.pairwise_append]
    obtain ⟨hhead, htail⟩ := List.pairwise_cons.mp hks
    refine ⟨?_, ih htail, ?_⟩
    · apply List.pairwise_of_forall_mem_list
      intro a ha b hb
      have ha2 := List.of_mem_filter ha
      have hb2 := List.of_mem_filter hb
      simp only [decide_eq_true_eq] at ha2 hb2
      exact Or.inr (ha2.trans hb2.symm)
    · intro a ha b hb
      have ha2 := List.of_mem_filter ha
      simp only [decide_eq_true_eq] at ha2
      obtain ⟨k2, hk2, hb2⟩ := List.mem_flatMap.mp hb
      have hb3 := List.of_mem_filter hb2
      simp only [decide_eq_true_eq] at hb3
      rw [ha2, hb3]
      exact Or.inl (hhead k2 hk2)

/-! ### What a successful run of the builders produces -/

/-- The feature of one station row with lookups resolved from the row
itself (equal to the group-level lookups, because the group key is exactly
the pair of these two fields). -/
def station_feature (r : StationRow) : Feature :=
  ⟨Geometry.Point [r.Longitude, r.Latitude],
   station_properties r ((status_colors.lookup r.Status).getD "")
     ((platforms_icons.lookup r.PlatformType).getD "")⟩

theorem parse_stations_go_ok :
    ∀ (df : List StationRow) (ks : List (String × String)) (fs : List Feature),
      parse_stations_go df ks = .ok fs →
      fs = ks.flatMap (fun p =>
          (df.filter (fun r => (r.PlatformType, r.Status) = p)).map
            station_feature)
        ∧ ∀ p ∈ ks, (status_colors.lookup p.2).isSome = true
            ∧ (platforms_icons.lookup p.1).isSome = true
  | df, [], fs, h => by
    rw [parse_stations_go] at h
    refine ⟨(Except.ok.inj h).symm, by simp⟩
  | df, (p, s) :: ks, fs, h => by
    rw [parse_stations_go] at h
    cases hc : status_colors.lookup s with
    | none => rw [hc] at h; exact absurd h (by simp)
    | some color =>
      rw [hc] at h
      cases hp : platforms_icons.lookup p with
      | none => rw [hp] at h; exact absurd h (by simp)
      | some picon =>
        rw [hp] at h
        cases hrec : parse_stations_go df ks with
        | error e => rw [hrec] at h; exact absurd h (by simp)
        | ok rest =>
          rw [hrec] at h
          obtain ⟨ih1, ih2⟩ := parse_stations_go_ok df ks rest hrec
          have hfs : fs = station_group
              (df.filter (fun r => (r.PlatformType, r.Status) = (p, s)))
              color picon ++ rest := (Except.ok.inj h).symm
          constructor
          · rw [hfs, ih1, List.flatMap_cons]
            congr 1
            rw [station_group]
            apply List.map_congr_left
            intro r hr
            have hkey := List.of_mem_filter hr
            simp only [decide_eq_true_eq, Prod.mk.injEq] at hkey
            rw [station_feature]
            rw [hkey.1, hkey.2, hc, hp]
            rfl
          · intro q hq
            rcases List.mem_cons.mp hq with hq | hq
            · rw [hq]
              constructor
              · simp [hc]
              · simp [hp]
            · exact ih2 q hq

theorem parse_stations_ok {df : List StationRow} {fc : FeatureCollection}
    (h : parse_stations df = .ok fc) :
    fc.features
        = (rowsInOrder pairLt (fun r => (r.PlatformType, r.Status)) df).map
            station_feature
      ∧ ∀ r ∈ df, (status_colors.lookup r.Status).isSome = true
          ∧ (platforms_icons.lookup r.PlatformType).isSome = true := by
  rw [parse_stations] at h
  cases hgo : parse_stations_go df
      (groupKeys pairLt (fun r => (r.PlatformType, r.Status)) df) with
  | error e => rw [hgo] at h; exact absurd h (by simp)
  | ok fs =>
    rw [hgo] at h
    have hfc : fc = ⟨fs⟩ := (Except.ok.inj h).symm
    obtain ⟨h1, h2⟩ := parse_stations_go_ok df _ fs hgo
    constructor
    · rw [hfc, h1, rowsInOrder, List.map_flatMap]
    · intro r hr
      exact h2 (r.PlatformType, r.Status)
        ((mem_groupKeys pairLt _ _ df).mpr ⟨r, hr, rfl⟩)

theorem parse_stations_go_isOk :
    ∀ (df : List StationRow) (ks : List (String × String)),
      (∀ p ∈ ks, (status_colors.lookup p.2).isSome = true
        ∧ (platforms_icons.lookup p.1).isSome = true) →
      ∃ fs, parse_stations_go df ks = .ok fs
  | df, [], _ => ⟨[], rfl⟩
  | df, (p, s) :: ks, h => by
    obtain ⟨h1, h2⟩ := h (p, s) (List.mem_cons_self _ _)
    obtain ⟨fs, hfs⟩ := parse_stations_go_isOk df ks
      (fun q hq => h q (List.mem_cons_of_mem _ hq))
    obtain ⟨color, hc⟩ := Option.isSome_iff_exists.mp h1
    obtain ⟨picon, hp⟩ := Option.isSome_iff_exists.mp h2
    have hc2 : status_colors.lookup s = some color := hc
    have hp2 : platforms_icons.lookup p = some picon := hp
    refine ⟨station_group
      (df.filter (fun r => (r.PlatformType, r.Status) = (p, s)))
      color picon ++ fs, ?_⟩
    rw [parse_stations_go, hc2, hp2, hfs]

theorem parse_stations_isOk {df : List StationRow}
    (h : ∀ r ∈ df, (status_colors.lookup r.Status).isSome = true
      ∧ (platforms_icons.lookup r.PlatformType).isSome = true) :
    ∃ fc, parse_stations df = .ok fc := by
  obtain ⟨fs, hfs⟩ := parse_stations_go_isOk df
    (groupKeys pairLt (fun r => (r.PlatformType, r.Status)) df)
    (by
      intro p hp
      obtain ⟨r, hr, hk⟩ := (mem_groupKeys pairLt _ _ df).mp hp
      have := h r hr
      rw [← hk]
      exact this)
  exact ⟨⟨fs⟩, by rw [parse_stations, hfs]⟩

/-- The wedge of a row as a pure optional value: `none` when the band is
unknown or the bounds are degenerate. -/
def wedgeOpt (r : RadarRow) : Option WedgePatch :=
  match ranges.lookup r.MHz with
  | none => none
  | some rng =>
    mplWedge (r.Longitude, r.Latitude) (fdiv ⟨Int.ofNat rng, 1⟩ ⟨1111, 10⟩)
      (fadd r.StartAngle r.SpreadAngle) r.StartAngle

/-- The polygon geometry built from a wedge patch. -/
def wedgePolyGeom (A : ArcModel) (w : WedgePatch) : Geometry :=
  mpl_patch2geo_polygon (wedgePathVertices A w)

/-- State of the `polygon` local after a list of rows: the polygon of the
last row whose wedge construction succeeded, otherwise the inherited
state. -/
def lastPolyAll (A : ArcModel) (st : Option Geometry) (rows : List RadarRow) :
    Option Geometry :=
  match rows.reverse.find? (fun r => (wedgeOpt r).isSome) with
  | some r => (wedgeOpt r).map (wedgePolyGeom A)
  | none => st

/-- The polygon attached to the row at position `i` of the iteration: the
most recent successful wedge at or before `i`, else the inherited state. -/
def lastPoly (A : ArcModel) (st : Option Geometry) (rows : List RadarRow)
    (i : Nat) : Option Geometry :=
  lastPolyAll A st (rows.take (i + 1))

/-- The point feature of one radar row with the color resolved from the row
itself. -/
def radar_point_feature (r : RadarRow) : Feature :=
  ⟨Geometry.Point [r.Longitude, r.Latitude],
   radar_point_properties r ((status_colors.lookup r.Status).getD "")⟩

theorem wedge_ok {r : RadarRow} {rng : Nat}
    (h : ranges.lookup r.MHz = some rng) : wedge r = .ok (wedgeOpt r) := by
  rw [wedge, wedgeOpt, h]

theorem wedge_err {r : RadarRow} (h : ranges.lookup r.MHz = none) :
    wedge r = .error ("KeyError: " ++ toString r.MHz) := by
  rw [wedge, h]

theorem lastPolyAll_append (A : ArcModel) (st : Option Geometry)
    (l1 l2 : List RadarRow) :
    lastPolyAll A st (l1 ++ l2) = lastPolyAll A (lastPolyAll A st l1) l2 := by
  rw [lastPolyAll, lastPolyAll, List.reverse_append, List.find?_append]
  cases h : l2.reverse.find? (fun r => (wedgeOpt r).isSome) with
  | some r => simp [h]
  | none => simp [h, lastPolyAll]

theorem lastPolyAll_single_some (A : ArcModel) (st : Option Geometry)
    {row : RadarRow} {w : WedgePatch} (h : wedgeOpt row = some w) :
    lastPolyAll A st [row] = some (wedgePolyGeom A w) := by
  rw [lastPolyAll]
  simp [List.find?, h]

theorem lastPolyAll_single_none (A : ArcModel) (st : Option Geometry)
    {row : RadarRow} (h : wedgeOpt row = none) :
    lastPolyAll A st [row] = st := by
  rw [lastPolyAll]
  simp [List.find?, h]

theorem lastPolyAll_cons (A : ArcModel) (st : Option Geometry)
    (row : RadarRow) (rest : List RadarRow) :
    lastPolyAll A st (row :: rest)
      = lastPolyAll A (lastPolyAll A st [row]) rest := by
  rw [show row :: rest = [row] ++ rest from rfl, lastPolyAll_append]

theorem lastPoly_cons (A : ArcModel) (st : Option Geometry)
    (row : RadarRow) (rest : List RadarRow) (j : Nat) :
    lastPoly A st (row :: rest) (j + 1)
      = lastPoly A (lastPolyAll A st [row]) rest j := by
  rw [lastPoly, lastPoly, List.take_succ_cons,
    show row :: rest.take (j + 1) = [row] ++ rest.take (j + 1) from rfl,
    lastPolyAll_append]

theorem lastPolyAll_none_some {A : ArcModel} :
    ∀ {rows : List RadarRow} {g : Geometry},
      lastPolyAll A none rows = some g → ∃ w, g = wedgePolyGeom A w := by
  intro rows g h
  rw [lastPolyAll] at h
  cases hf : rows.reverse.find? (fun r => (wedgeOpt r).isSome) with
  | none => rw [hf] at h; exact absurd h (by simp)
  | some r =>
    rw [hf] at h
    have h2 : Option.map (wedgePolyGeom A) (wedgeOpt r) = some g := h
    cases hw : wedgeOpt r with
    | none => rw [hw] at h2; exact absurd h2 (by simp)
    | some w =>
      rw [hw] at h2
      have h3 : some (wedgePolyGeom A w) = some g := h2
      exact ⟨w, (Option.some.inj h3).symm⟩

theorem parse_hfradar_rows_ok (A : ArcModel) (color : String)
    (defaults : List (String × JValue)) :
    ∀ (st : Option Geometry) (rows : List RadarRow)
      (pts pls : List Feature) (st2 : Option Geometry),
      parse_hfradar_rows A color defaults st rows = .ok (pts, pls, st2) →
      pts = rows.map (fun r => ⟨Geometry.Point [r.Longitude, r.Latitude],
          radar_point_properties r color⟩)
      ∧ pls.length = rows.length
      ∧ (∀ i, i < rows.length →
          pls[i]? = (lastPoly A st rows i).map
            (fun g => (⟨g, defaults⟩ : Feature)))
      ∧ st2 = lastPolyAll A st rows
      ∧ (∀ r ∈ rows, (ranges.lookup r.MHz).isSome = true)
  | st, [], pts, pls, st2, h => by
    rw [parse_hfradar_rows] at h
    have h2 := Except.ok.inj h
    simp only [Prod.mk.injEq] at h2
    obtain ⟨h3, h4, h5⟩ := h2
    subst h3
    subst h4
    subst h5
    refine ⟨rfl, rfl, ?_, rfl, ?_⟩
    · intro i hi
      exact absurd hi (Nat.not_lt_zero i)
    · intro r hr
      simp at hr
  | st, row :: rest, pts, pls, st2, h => by
    rw [parse_hfradar_rows] at h
    cases hrng : ranges.lookup row.MHz with
    | none =>
      rw [wedge_err hrng] at h
      exact absurd h (by simp)
    | some rng =>
      rw [wedge_ok hrng] at h
      cases hwo : wedgeOpt row with
      | some w =>
        rw [hwo] at h
        have h2 : (match parse_hfradar_rows A color defaults
            (some (mpl_patch2geo_polygon (wedgePathVertices A w))) rest with
          | .error e =>
            (.error e : Except String (List Feature × List Feature × Option Geometry))
          | .ok (pts0, pls0, st20) =>
            .ok (⟨Geometry.Point [row.Longitude, row.Latitude],
                radar_point_properties row color⟩ :: pts0,
              (⟨mpl_patch2geo_polygon (wedgePathVertices A w), defaults⟩
                : Feature) :: pls0, st20)) = .ok (pts, pls, st2) := h
        cases hrec : parse_hfradar_rows A color defaults
            (some (mpl_patch2geo_polygon (wedgePathVertices A w))) rest with
        | error e =>
          rw [hrec] at h2
          exact absurd h2 (by simp)
        | ok tri =>
          obtain ⟨pts0, pls0, st20⟩ := tri
          rw [hrec] at h2
          have h3 : (Except.ok (⟨Geometry.Point [row.Longitude, row.Latitude],
              radar_point_properties row color⟩ :: pts0,
              (⟨mpl_patch2geo_polygon (wedgePathVertices A w), defaults⟩
                : Feature) :: pls0, st20)
              : Except String (List Feature × List Feature × Option Geometry))
              = .ok (pts, pls, st2) := h2
          have h4 := Except.ok.inj h3
          simp only [Prod.mk.injEq] at h4
          obtain ⟨h5, h6, h7⟩ := h4
          subst h5
          subst h6
          subst h7
          obtain ⟨ih1, ih2, ih3, ih4, ih5⟩ :=
            parse_hfradar_rows_ok A color defaults _ rest pts0 pls0 st20 hrec
          have hsingle : lastPolyAll A st [row]
              = some (mpl_patch2geo_polygon (wedgePathVertices A w)) :=
            lastPolyAll_single_some A st hwo
          refine ⟨?_, ?_, ?_, ?_, ?_⟩
          · rw [List.map_cons, ih1]
          · simp [ih2]
          · intro i hi
            cases i with
            | zero =>
              rw [lastPoly]
              rw [show (row :: rest).take 1 = [row] from rfl]
              rw [hsingle]
              simp
            | succ j =>
              rw [lastPoly_cons A st row rest j, hsingle]
              have hj : j < rest.length := by
                simp at hi
                omega
              rw [List.getElem?_cons_succ]
              exact ih3 j hj
          · rw [lastPolyAll_cons A st row rest, hsingle, ih4]
          · intro r hr
            rcases List.mem_cons.mp hr with hr | hr
            · rw [hr, hrng]; rfl
            · exact ih5 r hr
      | none =>
        rw [hwo] at h
        cases st with
        | none =>
          have h2 : (Except.error "UnboundLocalError: polygon"
              : Except String (List Feature × List Feature × Option Geometry))
              = .ok (pts, pls, st2) := h
          exact absurd h2 (by simp)
        | some pg =>
          have h2 : (match parse_hfradar_rows A color defaults (some pg) rest with
            | .error e =>
              (.error e : Except String (List Feature × List Feature × Option Geometry))
            | .ok (pts0, pls0, st20) =>
              .ok (⟨Geometry.Point [row.Longitude, row.Latitude],
                  radar_point_properties row color⟩ :: pts0,
                (⟨pg, defaults⟩ : Feature) :: pls0, st20))
              = .ok (pts, pls, st2) := h
          cases hrec : parse_hfradar_rows A color defaults (some pg) rest with
          | error e =>
            rw [hrec] at h2
            exact absurd h2 (by simp)
          | ok tri =>
            obtain ⟨pts0, pls0, st20⟩ := tri
            rw [hrec] at h2
            have h3 : (Except.ok (⟨Geometry.Point [row.Longitude, row.Latitude],
                radar_point_properties row color⟩ :: pts0,
                (⟨pg, defaults⟩ : Feature) :: pls0, st20)
                : Except String (List Feature × List Feature × Option Geometry))
                = .ok (pts, pls, st2) := h2
            have h4 := Except.ok.inj h3
            simp only [Prod.mk.injEq] at h4
            obtain ⟨h5, h6, h7⟩ := h4
            subst h5
            subst h6
            subst h7
            obtain ⟨ih1, ih2, ih3, ih4, ih5⟩ :=
              parse_hfradar_rows_ok A color defaults _ rest pts0 pls0 st20 hrec
            have hsingle : lastPolyAll A (some pg) [row] = some pg :=
              lastPolyAll_single_none A (some pg) hwo
            refine ⟨?_, ?_, ?_, ?_, ?_⟩
            · rw [List.map_cons, ih1]
            · simp [ih2]
            · intro i hi
              cases i with
              | zero =>
                rw [lastPoly]
                rw [show (row :: rest).take 1 = [row] from rfl]
                rw [hsingle]
                simp
              | succ j =>
                rw [lastPoly_cons A (some pg) row rest j, hsingle]
                have hj : j < rest.length := by
                  simp at hi
                  omega
                rw [List.getElem?_cons_succ]
                exact ih3 j hj
            · rw [lastPolyAll_cons A (some pg) row rest, hsingle, ih4]
            · intro r hr
              rcases List.mem_cons.mp hr with hr | hr
              · rw [hr, hrng]; rfl
              · exact ih5 r hr

theorem parse_hfradar_go_ok (A : ArcModel) (defaults : List (String × JValue))
    (df : List RadarRow) :
    ∀ (st : Option Geometry) (ks : List String) (pts pls : List Feature),
      parse_hfradar_go A defaults df st ks = .ok (pts, pls) →
      pts = (ks.flatMap (fun s => df.filter (fun r => r.Status = s))).map
          radar_point_feature
      ∧ pls.length
          = (ks.flatMap (fun s => df.filter (fun r => r.Status = s))).length
      ∧ (∀ i, i < (ks.flatMap (fun s =>
            df.filter (fun r => r.Status = s))).length →
          pls[i]? = (lastPoly A st
            (ks.flatMap (fun s => df.filter (fun r => r.Status = s))) i).map
            (fun g => (⟨g, defaults⟩ : Feature)))
      ∧ (∀ s ∈ ks, (status_colors.lookup s).isSome = true)
      ∧ (∀ r ∈ ks.flatMap (fun s => df.filter (fun r => r.Status = s)),
          (ranges.lookup r.MHz).isSome = true)
  | st, [], pts, pls, h => by
    rw [parse_hfradar_go] at h
    have h2 := Except.ok.inj h
    simp only [Prod.mk.injEq] at h2
    obtain ⟨h3, h4⟩ := h2
    subst h3
    subst h4
    refine ⟨rfl, rfl, ?_, ?_, ?_⟩
    · intro i hi
      simp at hi
    · intro s hs
      simp at hs
    · intro r hr
      simp at hr
  | st, s :: ks, pts, pls, h => by
    rw [parse_hfradar_go] at h
    cases hc : status_colors.lookup s with
    | none =>
      rw [hc] at h
      exact absurd h (by simp)
    | some color =>
      rw [hc] at h
      have h2 : (match parse_hfradar_rows A color defaults st
            (df.filter (fun r => r.Status = s)) with
          | Except.error e => Except.error e
          | Except.ok (pts1, pls1, st2) =>
            match parse_hfradar_go A defaults df st2 ks with
            | Except.error e => Except.error e
            | Except.ok (pts2, pls2) => Except.ok (pts1 ++ pts2, pls1 ++ pls2))
          = (Except.ok (pts, pls)
            : Except String (List Feature × List Feature)) := h
      cases hrows : parse_hfradar_rows A color defaults st
          (df.filter (fun r => r.Status = s)) with
      | error e =>
        rw [hrows] at h2
        exact absurd h2 (by simp)
      | ok tri =>
        obtain ⟨pts1, pls1, st21⟩ := tri
        rw [hrows] at h2
        have h2b : (match parse_hfradar_go A defaults df st21 ks with
            | Except.error e => Except.error e
            | Except.ok (pts2, pls2) => Except.ok (pts1 ++ pts2, pls1 ++ pls2))
            = (Except.ok (pts, pls)
              : Except String (List Feature × List Feature)) := h2
        cases hrec : parse_hfradar_go A defaults df st21 ks with
        | error e =>
          rw [hrec] at h2b
          exact absurd h2b (by simp)
        | ok pair =>
          obtain ⟨pts2, pls2⟩ := pair
          rw [hrec] at h2b
          have h3 : (Except.ok (pts1 ++ pts2, pls1 ++ pls2)
              : Except String (List Feature × List Feature))
              = .ok (pts, pls) := h2b
          have h4 := Except.ok.inj h3
          simp only [Prod.mk.injEq] at h4
          obtain ⟨h5, h6⟩ := h4
          subst h5
          subst h6
          obtain ⟨r1, r2, r3, r4, r5⟩ :=
            parse_hfradar_rows_ok A color defaults st
              (df.filter (fun r => r.Status = s)) pts1 pls1 st21 hrows
          obtain ⟨g1, g2, g3, g4, g5⟩ :=
            parse_hfradar_go_ok A defaults df st21 ks pts2 pls2 hrec
          have hblock : pts1 = (df.filter (fun r => r.Status = s)).map
              radar_point_feature := by
            rw [r1]
            apply List.map_congr_left
            intro r hr
            have hst := List.of_mem_filter hr
            simp only [decide_eq_true_eq] at hst
            rw [radar_point_feature, hst, hc]
            rfl
          refine ⟨?_, ?_, ?_, ?_, ?_⟩
          · rw [List.flatMap_cons, List.map_append, hblock, g1]
          · rw [List.flatMap_cons, List.length_append, List.length_append,
              r2, g2]
          · intro i hi
            rw [List.flatMap_cons]
            by_cases hlt : i < pls1.length
            · rw [List.getElem?_append_left hlt]
              have hle : i + 1 ≤ (df.filter (fun r => r.Status = s)).length := by
                omega
              rw [lastPoly, List.take_append_of_le_length hle, ← lastPoly]
              exact r3 i (by omega)
            · have hge : pls1.length ≤ i := by omega
              rw [List.getElem?_append_right hge]
              have htake : ((df.filter (fun r => r.Status = s)) ++
                  ks.flatMap (fun s2 => df.filter (fun r => r.Status = s2))).take
                    (i + 1)
                  = (df.filter (fun r => r.Status = s)) ++
                    (ks.flatMap (fun s2 =>
                      df.filter (fun r => r.Status = s2))).take
                        (i + 1 - (df.filter (fun r => r.Status = s)).length) := by
                rw [List.take_append_eq_append_take]
                congr 1
                apply List.take_of_length_le
                omega
              have hidx : i + 1 - (df.filter (fun r => r.Status = s)).length
                  = (i - pls1.length) + 1 := by
                omega
              rw [lastPoly, htake, lastPolyAll_append, ← r4, hidx,
                ← lastPoly]
              apply g3
              rw [List.flatMap_cons, List.length_append] at hi
              omega
          · intro s2 hs2
            rcases List.mem_cons.mp hs2 with hx | hx
            · rw [hx, hc]
              rfl
            · exact g4 s2 hx
          · intro r hr
            rw [List.flatMap_cons] at hr
            rcases List.mem_append.mp hr with hx | hx
            · exact r5 r hx
            · exact g5 r hx

theorem parse_hfradar_ok {A : ArcModel} {df : List RadarRow}
    {kw : List (String × JValue)} {fc : FeatureCollection}
    (h : parse_hfradar A df kw = .ok fc) :
    ∃ pls : List Feature,
      fc.features
        = (rowsInOrder strLt (fun r => r.Status) df).map radar_point_feature
          ++ pls
      ∧ pls.length = (rowsInOrder strLt (fun r => r.Status) df).length
      ∧ (∀ i, i < (rowsInOrder strLt (fun r => r.Status) df).length →
          pls[i]? = (lastPoly A none
            (rowsInOrder strLt (fun r => r.Status) df) i).map
            (fun g => (⟨g, dictUpdate radar_defaults kw⟩ : Feature)))
      ∧ (∀ r ∈ df, (status_colors.lookup r.Status).isSome = true
          ∧ (ranges.lookup r.MHz).isSome = true) := by
  rw [parse_hfradar] at h
  cases hgo : parse_hfradar_go A (dictUpdate radar_defaults kw) df none
      (groupKeys strLt (fun r => r.Status) df) with
  | error e =>
    rw [hgo] at h
    exact absurd h (by simp)
  | ok pair =>
    obtain ⟨pts, pls⟩ := pair
    rw [hgo] at h
    have hfc : fc = ⟨pts ++ pls⟩ := (Except.ok.inj h).symm
    obtain ⟨g1, g2, g3, g4, g5⟩ :=
      parse_hfradar_go_ok A (dictUpdate radar_defaults kw) df none
        (groupKeys strLt (fun r => r.Status) df) pts pls hgo
    have hrows : rowsInOrder strLt (fun r => r.Status) df
        = (groupKeys strLt (fun r => r.Status) df).flatMap
            (fun s => df.filter (fun r => r.Status = s)) := rfl
    refine ⟨pls, ?_, ?_, ?_, ?_⟩
    · rw [hfc, hrows, g1]
    · rw [hrows]
      exact g2
    · rw [hrows]
      exact g3
    · intro r hr
      have hmem : r ∈ (groupKeys strLt (fun r => r.Status) df).flatMap
          (fun s => df.filter (fun r2 => r2.Status = s)) :=
        List.mem_flatMap.mpr ⟨r.Status,
          (mem_groupKeys strLt (fun r2 => r2.Status) r.Status df).mpr
            ⟨r, hr, rfl⟩,
          List.mem_filter.mpr ⟨hr, by simp⟩⟩
      constructor
      · have := g4 r.Status
          ((mem_groupKeys strLt (fun r2 => r2.Status) r.Status df).mpr
            ⟨r, hr, rfl⟩)
        exact this
      · exact g5 r hmem

/-! ### Concrete test fixtures -/

/-- A concrete arc interpretation (any `ArcModel` works in the theorems;
this one makes the fixtures computable). -/
def cArc : ArcModel := ⟨fun q => (q, q), fun a _ => (a, a), fun _ b => (b, b)⟩

/-- An operational radar row with a known band and a non-degenerate wedge. -/
def opRow : RadarRow :=
  ⟨"DUCK", "Duck", 5, "Operational", ⟨30, 1⟩, ⟨90, 1⟩, ⟨-75, 1⟩, ⟨36, 1⟩⟩

/-- A radar row whose wedge construction is degenerate (spread angle 0). -/
def degRow : RadarRow :=
  ⟨"DEG", "Degenerate", 5, "Operational", ⟨0, 1⟩, ⟨0, 1⟩, ⟨-80, 1⟩, ⟨30, 1⟩⟩

/-- A radar row with a recognized status but an unlisted 7 MHz band. -/
def badBandRow : RadarRow :=
  ⟨"ODD", "Odd band", 7, "Operational", ⟨30, 1⟩, ⟨90, 1⟩, ⟨-75, 1⟩, ⟨36, 1⟩⟩

/-- The station row of the worked example in the spec. -/
def buoyRow : StationRow :=
  ⟨"Buoy1", "Fixed Surface Buoy", "Operational", ⟨-161, 2⟩, ⟨283, 10⟩,
   "Offshore test buoy"⟩

/-- A station row with a status outside the color table. -/
def decomRow : StationRow :=
  ⟨"X1", "Fixed Surface Buoy", "Decommissioned", ⟨0, 1⟩, ⟨0, 1⟩, "retired"⟩

/-- The collection the radar builder returns on `[opRow, degRow]`. -/
def fcOpDeg : FeatureCollection :=
  (parse_hfradar cArc [opRow, degRow] []).toOption.getD ⟨[]⟩

/-- A one-feature collection whose feature has no `name` property. -/
def namelessFc : FeatureCollection :=
  ⟨[⟨Geometry.Point [⟨0, 1⟩, ⟨0, 1⟩], []⟩]⟩

/-! ### Ring shape of the wedge path -/

theorem wedgePathVertices_shape (A : ArcModel) (w : WedgePatch) :
    ∃ (x : Frac × Frac) (l : List (Frac × Frac))
      (f : Frac × Frac → Frac × Frac),
      wedgePathVertices A w
        = (x :: (l ++ [(⟨0, 1⟩, ⟨0, 1⟩), x, (⟨0, 1⟩, ⟨0, 1⟩)])).map f := by
  refine ⟨A.circPt (if feq (fsub w.theta2 w.theta1) ⟨360, 1⟩
      then ((⟨0, 1⟩ : Frac), (⟨360, 1⟩ : Frac))
      else (w.theta1, w.theta2)).1,
    (arcVertices A
      (if feq (fsub w.theta2 w.theta1) ⟨360, 1⟩
        then ((⟨0, 1⟩ : Frac), (⟨360, 1⟩ : Frac))
        else (w.theta1, w.theta2)).1
      (if feq (fsub w.theta2 w.theta1) ⟨360, 1⟩
        then ((⟨0, 1⟩ : Frac), (⟨360, 1⟩ : Frac))
        else (w.theta1, w.theta2)).2).tail,
    fun p => (fadd (fmul p.1 w.r) w.center.1, fadd (fmul p.2 w.r) w.center.2),
    ?_⟩
  rfl

theorem ring_getD {α : Type} (f : α → α) (x o d : α) (l : List α) :
    ((x :: (l ++ [o, x, o])).map f).getD
      (((x :: (l ++ [o, x, o])).map f).length - 2) d = f x := by
  rw [List.getD_eq_getElem?_getD]
  have hlen : ((x :: (l ++ [o, x, o])).map f).length = l.length + 4 := by simp
  rw [hlen]
  have hV : (x :: (l ++ [o, x, o])).map f
      = (f x :: l.map f) ++ [f o, f x, f o] := by simp
  rw [hV]
  have hge : (f x :: l.map f).length ≤ l.length + 4 - 2 := by simp
  rw [List.getElem?_append_right hge]
  have h1 : l.length + 4 - 2 - (f x :: l.map f).length = 1 := by simp
  rw [h1]
  rfl

/-! ### The polygon features of a successful radar run -/

theorem parse_hfradar_features {A : ArcModel} {df : List RadarRow}
    {kw : List (String × JValue)} {fc : FeatureCollection}
    (h : parse_hfradar A df kw = .ok fc) :
    ∃ pls : List Feature,
      fc.features
        = (rowsInOrder strLt (fun r => r.Status) df).map radar_point_feature
          ++ pls
      ∧ pls.length = df.length
      ∧ (rowsInOrder strLt (fun r => r.Status) df).length = df.length
      ∧ (∀ i, i < df.length →
          pls[i]? = (lastPoly A none
            (rowsInOrder strLt (fun r => r.Status) df) i).map
            (fun g => (⟨g, dictUpdate radar_defaults kw⟩ : Feature)))
      ∧ (∀ f ∈ pls, f.geometry.type = "Polygon"
          ∧ f.properties = dictUpdate radar_defaults kw)
      ∧ (∀ r ∈ df, (status_colors.lookup r.Status).isSome = true
          ∧ (ranges.lookup r.MHz).isSome = true) := by
  obtain ⟨pls, h1, h2, h3, h4⟩ := parse_hfradar_ok h
  have hlen : (rowsInOrder strLt (fun r => r.Status) df).length = df.length :=
    (rowsInOrder_perm strLt_total (fun _ _ _ ha hb => strLt_trans ha hb)
      strLt_irrefl (fun r => r.Status) df).length_eq
  refine ⟨pls, h1, by rw [h2, hlen], hlen, ?_, ?_, h4⟩
  · intro i hi
    exact h3 i (by rw [hlen]; exact hi)
  · intro f hf
    obtain ⟨i, hgi⟩ := List.mem_iff_getElem?.mp hf
    have hilt : i < df.length := by
      have := (List.getElem?_eq_some.mp hgi).1
      rw [h2, hlen] at this
      exact this
    have hpi := h3 i (by rw [hlen]; exact hilt)
    rw [hgi] at hpi
    cases hlp : lastPoly A none (rowsInOrder strLt (fun r => r.Status) df) i with
    | none =>
      rw [hlp] at hpi
      exact absurd hpi (by simp)
    | some g =>
      rw [hlp] at hpi
      have hf2 : some f
          = some (⟨g, dictUpdate radar_defaults kw⟩ : Feature) := hpi
      have hf3 := Option.some.inj hf2
      obtain ⟨w, hw⟩ := lastPolyAll_none_some hlp
      subst hf3
      subst hw
      exact ⟨rfl, rfl⟩

/-! ### Counting lemmas for the shapefile writer -/

theorem save_shapefile_count (g : String) :
    ∀ (n : Nat) (fs : List Feature),
      ((List.enumFrom n fs).filterMap (fun p =>
        if p.2.geometry.type = g then
          some (⟨p.2.geometry,
            String.mk ((shpName p.2.properties p.1).data.take 80)⟩ : ShpRecord)
        else none)).length
      = (fs.filter (fun f => f.geometry.type = g)).length
  | _, [] => rfl
  | n, f :: fs => by
    rw [List.enumFrom]
    by_cases hf : f.geometry.type = g
    · simp [List.filterMap_cons, List.filter_cons, hf,
        save_shapefile_count g (n + 1) fs]
    · simp [List.filterMap_cons, List.filter_cons, hf,
        save_shapefile_count g (n + 1) fs]

theorem save_shapefile_length (fc : FeatureCollection) (g : String) :
    (save_shapefile fc g).length
      = (fc.features.filter (fun f => f.geometry.type = g)).length := by
  rw [save_shapefile]
  exact save_shapefile_count g 0 fc.features

theorem save_shapefile_name_le (fc : FeatureCollection) (g : String) :
    ∀ rec ∈ save_shapefile fc g, rec.name.length ≤ 80 := by
  intro rec hrec
  rw [save_shapefile] at hrec
  obtain ⟨p, _, hp⟩ := List.mem_filterMap.mp hrec
  by_cases hg : p.2.geometry.type = g
  · rw [if_pos hg] at hp
    have h2 := Option.some.inj hp
    rw [← h2]
    have h3 : (String.mk ((shpName p.2.properties p.1).data.take 80)).length
        = ((shpName p.2.properties p.1).data.take 80).length := rfl
    rw [h3, List.length_take]
    omega
  · rw [if_neg hg] at hp
    exact absurd hp (by simp)

/-! ## The claims -/

/-- C1: the spec says a degenerate radar wedge row yields its point feature
and no polygon feature, without error; the code does neither. A degenerate
row as the first row of the run makes the builder raise (the `polygon` local
is read before assignment) and a degenerate row after a successful one still
contributes a polygon feature, a duplicate of the most recent polygon. -/
theorem C1_degenerate_wedge_bug :
    parse_hfradar cArc [degRow] [] = .error "UnboundLocalError: polygon"
    ∧ parse_hfradar cArc [opRow, degRow] [] = .ok fcOpDeg
    ∧ fcOpDeg.features.length = 4
    ∧ (fcOpDeg.features.filter
        (fun f => f.geometry.type = "Polygon")).length = 2
    ∧ fcOpDeg.features[2]? = fcOpDeg.features[3]? :=
  ⟨rfl, rfl, rfl, rfl, rfl⟩

/-- C2: a row with a status outside the color table (stations or radar), a
platform type outside the icon table (stations), or an MHz band outside the
ranges table (radar) makes the builder raise: no collection is returned for
any such table. -/
theorem C2_unknown_category_fails :
    (∀ df : List StationRow,
      (∃ r ∈ df, status_colors.lookup r.Status = none
        ∨ platforms_icons.lookup r.PlatformType = none) →
      ∀ fc, parse_stations df ≠ .ok fc)
    ∧ (∀ (A : ArcModel) (df : List RadarRow) (kw : List (String × JValue)),
      (∃ r ∈ df, status_colors.lookup r.Status = none
        ∨ ranges.lookup r.MHz = none) →
      ∀ fc, parse_hfradar A df kw ≠ .ok fc) := by
  constructor
  · intro df hbad fc h
    obtain ⟨r, hr, hb⟩ := hbad
    obtain ⟨_, h2⟩ := parse_stations_ok h
    obtain ⟨hs, hp⟩ := h2 r hr
    rcases hb with hb | hb
    · rw [hb] at hs
      exact absurd hs (by simp)
    · rw [hb] at hp
      exact absurd hp (by simp)
  · intro A df kw hbad fc h
    obtain ⟨r, hr, hb⟩ := hbad
    obtain ⟨_, _, _, _, h4⟩ := parse_hfradar_ok h
    obtain ⟨hs, hm⟩ := h4 r hr
    rcases hb with hb | hb
    · rw [hb] at hs
      exact absurd hs (by simp)
    · rw [hb] at hm
      exact absurd hm (by simp)

theorem C2_witness :
    ((∃ r ∈ [decomRow], status_colors.lookup r.Status = none
        ∨ platforms_icons.lookup r.PlatformType = none)
      ∧ parse_stations [decomRow] ≠ .ok ⟨[]⟩)
    ∧ ((∃ r ∈ [badBandRow], status_colors.lookup r.Status = none
        ∨ ranges.lookup r.MHz = none)
      ∧ parse_hfradar cArc [badBandRow] [] ≠ .ok ⟨[]⟩) :=
  ⟨⟨by decide, C2_unknown_category_fails.1 [decomRow] (by decide) ⟨[]⟩⟩,
   ⟨by decide, C2_unknown_category_fails.2 cArc [badBandRow] [] (by decide) ⟨[]⟩⟩⟩

/-- C3 as frozen is too strong: in this table every row has a recognized
status, yet the radar builder returns no collection at all, because the
7 MHz band is missing from the ranges table. -/
theorem C3_counterexample :
    (∀ r ∈ [badBandRow], (status_colors.lookup r.Status).isSome = true)
    ∧ parse_hfradar cArc [badBandRow] [] = .error "KeyError: 7" :=
  ⟨by decide, rfl⟩

/-- C3 (amended): for stations, recognized platform and status values
guarantee a returned collection with exactly one point feature per row,
whose coordinates are the row's longitude and latitude; for radar, any
returned collection likewise holds exactly one point feature per row with
the row's coordinates (recognized statuses alone do not guarantee a radar
return: an unknown band or a leading degenerate wedge aborts the run). -/
theorem C3_point_per_row :
    (∀ df : List StationRow,
      (∀ r ∈ df, (status_colors.lookup r.Status).isSome = true
        ∧ (platforms_icons.lookup r.PlatformType).isSome = true) →
      ∃ fc, parse_stations df = .ok fc
        ∧ fc.features.length = df.length
        ∧ (fc.features.map (fun f => f.geometry)).Perm
            (df.map (fun r => Geometry.Point [r.Longitude, r.Latitude])))
    ∧ (∀ (A : ArcModel) (df : List RadarRow) (kw : List (String × JValue))
        (fc : FeatureCollection), parse_hfradar A df kw = .ok fc →
      ((fc.features.filter (fun f => f.geometry.type = "Point")).map
          (fun f => f.geometry)).Perm
        (df.map (fun r => Geometry.Point [r.Longitude, r.Latitude]))) := by
  constructor
  · intro df hgood
    obtain ⟨fc, hfc⟩ := parse_stations_isOk hgood
    obtain ⟨h1, _⟩ := parse_stations_ok hfc
    have hperm := rowsInOrder_perm pairLt_total
      (fun _ _ _ ha hb => pairLt_trans ha hb) pairLt_irrefl
      (fun r => (r.PlatformType, r.Status)) df
    refine ⟨fc, hfc, ?_, ?_⟩
    · rw [h1, List.length_map, hperm.length_eq]
    · rw [h1, List.map_map]
      have hfun : ((fun f => f.geometry) ∘ station_feature)
          = fun r => Geometry.Point [r.Longitude, r.Latitude] := rfl
      rw [hfun]
      exact hperm.map _
  · intro A df kw fc h
    obtain ⟨pls, h1, _, _, _, hpoly, _⟩ := parse_hfradar_features h
    rw [h1, List.filter_append]
    have hpts : ((rowsInOrder strLt (fun r => r.Status) df).map
        radar_point_feature).filter (fun f => f.geometry.type = "Point")
        = (rowsInOrder strLt (fun r => r.Status) df).map
            radar_point_feature := by
      rw [List.filter_eq_self]
      intro f hf
      obtain ⟨r, _, hr⟩ := List.mem_map.mp hf
      rw [← hr]
      rfl
    have hpls : pls.filter (fun f => f.geometry.type = "Point") = [] := by
      rw [List.filter_eq_nil_iff]
      intro f hf
      have := (hpoly f hf).1
      simp [this]
    rw [hpts, hpls, List.append_nil, List.map_map]
    have hfun : ((fun f => f.geometry) ∘ radar_point_feature)
        = fun r => Geometry.Point [r.Longitude, r.Latitude] := rfl
    rw [hfun]
    exact (rowsInOrder_perm strLt_total
      (fun _ _ _ ha hb => strLt_trans ha hb) strLt_irrefl
      (fun r => r.Status) df).map _

theorem C3_witness :
    (∀ r ∈ [buoyRow], (status_colors.lookup r.Status).isSome = true
      ∧ (platforms_icons.lookup r.PlatformType).isSome = true)
    ∧ ∃ fc, parse_stations [buoyRow] = .ok fc
        ∧ fc.features.length = ([buoyRow] : List StationRow).length
        ∧ (fc.features.map (fun f => f.geometry)).Perm
            (([buoyRow] : List StationRow).map
              (fun r => Geometry.Point [r.Longitude, r.Latitude])) :=
  ⟨by decide, C3_point_per_row.1 [buoyRow] (by decide)⟩

/-- C4: for a radar row with a known band and non-degenerate angle bounds
the wedge construction succeeds, and the polygon closes its ring by
appending the second-to-last path vertex: the single ring is the path
vertex list plus that vertex, its first and last coordinates coincide, and
it has at least 3 vertices. -/
theorem C4_polygon_ring_closed (A : ArcModel) (r : RadarRow) (rng : Nat)
    (h1 : ranges.lookup r.MHz = some rng)
    (h2 : feq (fadd r.StartAngle r.SpreadAngle) r.StartAngle = false) :
    ∃ w : WedgePatch,
      wedge r = .ok (some w)
      ∧ mpl_patch2geo_polygon (wedgePathVertices A w)
          = .Polygon [wedgePathVertices A w
              ++ [(wedgePathVertices A w).getD
                    ((wedgePathVertices A w).length - 2) (⟨0, 1⟩, ⟨0, 1⟩)]]
      ∧ (wedgePathVertices A w
          ++ [(wedgePathVertices A w).getD
                ((wedgePathVertices A w).length - 2) (⟨0, 1⟩, ⟨0, 1⟩)]).head?
        = (wedgePathVertices A w
          ++ [(wedgePathVertices A w).getD
                ((wedgePathVertices A w).length - 2) (⟨0, 1⟩, ⟨0, 1⟩)]).getLast?
      ∧ 3 ≤ (wedgePathVertices A w
          ++ [(wedgePathVertices A w).getD
                ((wedgePathVertices A w).length - 2) (⟨0, 1⟩, ⟨0, 1⟩)]).length := by
  refine ⟨⟨(r.Longitude, r.Latitude), fdiv ⟨Int.ofNat rng, 1⟩ ⟨1111, 10⟩,
    fadd r.StartAngle r.SpreadAngle, r.StartAngle⟩, ?_, rfl, ?_, ?_⟩
  · rw [wedge_ok h1]
    have hopt : wedgeOpt r
        = some ⟨(r.Longitude, r.Latitude), fdiv ⟨Int.ofNat rng, 1⟩ ⟨1111, 10⟩,
            fadd r.StartAngle r.SpreadAngle, r.StartAngle⟩ := by
      simp [wedgeOpt, h1, mplWedge, h2]
    rw [hopt]
  · obtain ⟨x, l, f, hs⟩ :=
      wedgePathVertices_shape A ⟨(r.Longitude, r.Latitude),
        fdiv ⟨Int.ofNat rng, 1⟩ ⟨1111, 10⟩,
        fadd r.StartAngle r.SpreadAngle, r.StartAngle⟩
    rw [hs, ring_getD, List.getLast?_concat]
    simp
  · obtain ⟨x, l, f, hs⟩ :=
      wedgePathVertices_shape A ⟨(r.Longitude, r.Latitude),
        fdiv ⟨Int.ofNat rng, 1⟩ ⟨1111, 10⟩,
        fadd r.StartAngle r.SpreadAngle, r.StartAngle⟩
    rw [hs]
    simp

theorem C4_witness :
    (ranges.lookup opRow.MHz = some 190
      ∧ feq (fadd opRow.StartAngle opRow.SpreadAngle) opRow.StartAngle = false)
    ∧ ∃ w : WedgePatch,
      wedge opRow = .ok (some w)
      ∧ mpl_patch2geo_polygon (wedgePathVertices cArc w)
          = .Polygon [wedgePathVertices cArc w
              ++ [(wedgePathVertices cArc w).getD
                    ((wedgePathVertices cArc w).length - 2) (⟨0, 1⟩, ⟨0, 1⟩)]]
      ∧ (wedgePathVertices cArc w
          ++ [(wedgePathVertices cArc w).getD
                ((wedgePathVertices cArc w).length - 2) (⟨0, 1⟩, ⟨0, 1⟩)]).head?
        = (wedgePathVertices cArc w
          ++ [(wedgePathVertices cArc w).getD
                ((wedgePathVertices cArc w).length - 2)
                (⟨0, 1⟩, ⟨0, 1⟩)]).getLast?
      ∧ 3 ≤ (wedgePathVertices cArc w
          ++ [(wedgePathVertices cArc w).getD
                ((wedgePathVertices cArc w).length - 2)
                (⟨0, 1⟩, ⟨0, 1⟩)]).length :=
  ⟨⟨rfl, by decide⟩, C4_polygon_ring_closed cArc opRow 190 rfl (by decide)⟩

/-- C5: the shapefile writer of `data_frame2gis.py` and
`hfradar_geojson.py` writes exactly the features whose geometry type equals
the target: as many Point records as there are point features, as many
Polygon records as there are polygon features, and every record's name fits
the `str:80` field. -/
theorem C5_shapefile_counts (fc : FeatureCollection) :
    (save_shapefile fc "Point").length
      = (fc.features.filter (fun f => f.geometry.type = "Point")).length
    ∧ (save_shapefile fc "Polygon").length
      = (fc.features.filter (fun f => f.geometry.type = "Polygon")).length
    ∧ ∀ g : String, ∀ rec ∈ save_shapefile fc g, rec.name.length ≤ 80 :=
  ⟨save_shapefile_length fc "Point", save_shapefile_length fc "Polygon",
   fun g => save_shapefile_name_le fc g⟩

theorem C5_witness :
    (save_shapefile fcOpDeg "Point").length
      = (fcOpDeg.features.filter (fun f => f.geometry.type = "Point")).length :=
  (C5_shapefile_counts fcOpDeg).1

/-- C6 as frozen holds only for the parametrized writer: the writer of
`stations_geojson.py` has no fallback, so a feature without a `name`
property makes it raise `KeyError` instead of substituting the index. -/
theorem C6_counterexample :
    stations_save_shapefile namelessFc = .error "KeyError: name" := rfl

/-- C6 (amended): the writer of `data_frame2gis.py` and
`hfradar_geojson.py` falls back to the feature's 0-based position when the
`name` property is missing — the record is still written, named by the
index; the writer of `stations_geojson.py` instead raises `KeyError` on
such a feature. -/
theorem C6_missing_name_fallback (fc : FeatureCollection) (g : String)
    (i : Nat) (f : Feature) (h1 : fc.features[i]? = some f)
    (h2 : f.properties.lookup "name" = none)
    (h3 : f.geometry.type = g) :
    (⟨f.geometry, String.mk ((toString i).data.take 80)⟩ : ShpRecord)
      ∈ save_shapefile fc g := by
  rw [save_shapefile]
  apply List.mem_filterMap.mpr
  refine ⟨(i, f), List.mem_enum_iff_getElem?.mpr h1, ?_⟩
  rw [if_pos h3]
  have hn : shpName f.properties i = toString i := by
    rw [shpName, h2]
  rw [hn]

theorem C6_witness :
    (namelessFc.features[0]? = some ⟨Geometry.Point [⟨0, 1⟩, ⟨0, 1⟩], []⟩
      ∧ (([] : List (String × JValue)).lookup "name" = none)
      ∧ (Geometry.Point [⟨0, 1⟩, ⟨0, 1⟩] : Geometry).type = "Point")
    ∧ (⟨Geometry.Point [⟨0, 1⟩, ⟨0, 1⟩],
        String.mk ((toString 0).data.take 80)⟩ : ShpRecord)
      ∈ save_shapefile namelessFc "Point" :=
  ⟨⟨rfl, rfl, rfl⟩, C6_missing_name_fallback namelessFc "Point" 0
    ⟨Geometry.Point [⟨0, 1⟩, ⟨0, 1⟩], []⟩ rfl rfl rfl⟩

/-- The collection the station builder returns on the worked example row. -/
def buoyFc : FeatureCollection :=
  (parse_stations [buoyRow]).toOption.getD ⟨[]⟩

/-- C7: serializing the JSON form of a feature collection with the writer
(sorted keys, 2-space indent, comma and colon-space separators) and parsing
the document back yields the same value up to key order: the parse result
is exactly the key-sorted normal form of the written value, so both sides
normalize to the same document — same ordered features, same geometries,
same property values. -/
theorem C7_json_roundtrip (fc : FeatureCollection) (j : JValue)
    (h : fcJson fc = some j) :
    ∃ j2, jparse (save_geojson j) = some j2 ∧ sortDeepV j2 = sortDeepV j :=
  ⟨sortDeepV j, save_geojson_roundtrip j, sortDeepV_idem j⟩

theorem C7_witness :
    fcJson buoyFc = some ((fcJson buoyFc).getD (.str ""))
    ∧ ∃ j2, jparse (save_geojson ((fcJson buoyFc).getD (.str ""))) = some j2
        ∧ sortDeepV j2 = sortDeepV ((fcJson buoyFc).getD (.str "")) :=
  ⟨rfl, C7_json_roundtrip buoyFc ((fcJson buoyFc).getD (.str "")) rfl⟩

/-- C8: the collection lists all the point features first — followed by the
polygon block for radar, by nothing for stations — and the point features
appear group by group in ascending key order, inside a group in the input
row order. -/
theorem C8_feature_order :
    (∀ (df : List StationRow) (fc : FeatureCollection),
      parse_stations df = .ok fc →
      fc.features = (rowsInOrder pairLt
        (fun r => (r.PlatformType, r.Status)) df).map station_feature)
    ∧ (∀ (A : ArcModel) (df : List RadarRow) (kw : List (String × JValue))
        (fc : FeatureCollection), parse_hfradar A df kw = .ok fc →
      ∃ pls, fc.features
          = (rowsInOrder strLt (fun r => r.Status) df).map radar_point_feature
            ++ pls
        ∧ (∀ f ∈ (rowsInOrder strLt (fun r => r.Status) df).map
            radar_point_feature, f.geometry.type = "Point")
        ∧ (∀ f ∈ pls, f.geometry.type = "Polygon"))
    ∧ (∀ df : List StationRow,
        List.Pairwise (fun a b =>
          pairLt (a.PlatformType, a.Status) (b.PlatformType, b.Status) = true
          ∨ (a.PlatformType, a.Status) = (b.PlatformType, b.Status))
          (rowsInOrder pairLt (fun r => (r.PlatformType, r.Status)) df)
        ∧ ∀ k, (rowsInOrder pairLt
              (fun r => (r.PlatformType, r.Status)) df).filter
              (fun r => (r.PlatformType, r.Status) = k)
            = df.filter (fun r => (r.PlatformType, r.Status) = k))
    ∧ (∀ df : List RadarRow,
        List.Pairwise (fun a b => strLt a.Status b.Status = true
          ∨ a.Status = b.Status)
          (rowsInOrder strLt (fun r => r.Status) df)
        ∧ ∀ s, (rowsInOrder strLt (fun r => r.Status) df).filter
              (fun r => r.Status = s)
            = df.filter (fun r => r.Status = s)) := by
  refine ⟨?_, ?_, ?_, ?_⟩
  · intro df fc h
    exact (parse_stations_ok h).1
  · intro A df kw fc h
    obtain ⟨pls, h1, _, _, _, h5, _⟩ := parse_hfradar_features h
    refine ⟨pls, h1, ?_, fun f hf => (h5 f hf).1⟩
    intro f hf
    obtain ⟨r, _, hr⟩ := List.mem_map.mp hf
    rw [← hr]
    rfl
  · intro df
    exact ⟨rowsInOrder_sorted pairLt_total
        (fun _ _ _ ha hb => pairLt_trans ha hb)
        (fun r => (r.PlatformType, r.Status)) df,
      fun k => rowsInOrder_filter pairLt_total
        (fun _ _ _ ha hb => pairLt_trans ha hb) pairLt_irrefl
        (fun r => (r.PlatformType, r.Status)) df k⟩
  · intro df
    exact ⟨rowsInOrder_sorted strLt_total
        (fun _ _ _ ha hb => strLt_trans ha hb)
        (fun r => r.Status) df,
      fun s => rowsInOrder_filter strLt_total
        (fun _ _ _ ha hb => strLt_trans ha hb) strLt_irrefl
        (fun r => r.Status) df s⟩

theorem C8_witness :
    parse_stations [buoyRow] = .ok buoyFc
    ∧ buoyFc.features = (rowsInOrder pairLt
        (fun r => (r.PlatformType, r.Status)) [buoyRow]).map station_feature :=
  ⟨rfl, C8_feature_order.1 [buoyRow] buoyFc rfl⟩

/-- C9: the icon URL of every emitted point feature is built from the
mapped strings, never from the raw labels: the mapped platform icon name
(the literal `hfradar` for radar) and the mapped status color; the worked
example resolves to a URL ending in `buoy-green.png`. -/
theorem C9_icon_binding :
    (∀ (r : StationRow) (color picon : String),
      status_colors.lookup r.Status = some color →
      platforms_icons.lookup r.PlatformType = some picon →
      (station_feature r).properties.lookup "icon"
        = some (.str (icon picon color)))
    ∧ (∀ (r : RadarRow) (color : String),
      status_colors.lookup r.Status = some color →
      (radar_point_feature r).properties.lookup "icon"
        = some (.str (icon "hfradar" color)))
    ∧ (∀ (df : List StationRow) (fc : FeatureCollection),
      parse_stations df = .ok fc →
      ∀ f ∈ fc.features, ∃ r ∈ df, f = station_feature r)
    ∧ (∀ (A : ArcModel) (df : List RadarRow) (kw : List (String × JValue))
        (fc : FeatureCollection), parse_hfradar A df kw = .ok fc →
      ∀ f ∈ fc.features, f.geometry.type = "Point" →
        ∃ r ∈ df, f = radar_point_feature r)
    ∧ (station_feature buoyRow).properties.lookup "icon"
        = some (.str (url ++ "buoy-green.png")) := by
  refine ⟨?_, ?_, ?_, ?_, ?_⟩
  · intro r color picon hc hp
    have h2 : (station_feature r).properties = station_properties r
        ((status_colors.lookup r.Status).getD "")
        ((platforms_icons.lookup r.PlatformType).getD "") := rfl
    rw [h2, hc, hp]
    rfl
  · intro r color hc
    have h2 : (radar_point_feature r).properties = radar_point_properties r
        ((status_colors.lookup r.Status).getD "") := rfl
    rw [h2, hc]
    rfl
  · intro df fc h f hf
    rw [(parse_stations_ok h).1] at hf
    obtain ⟨r, hr, hfr⟩ := List.mem_map.mp hf
    exact ⟨r, (rowsInOrder_perm pairLt_total
      (fun _ _ _ ha hb => pairLt_trans ha hb) pairLt_irrefl
      (fun r => (r.PlatformType, r.Status)) df).mem_iff.mp hr, hfr.symm⟩
  · intro A df kw fc h f hf htype
    obtain ⟨pls, h1, _, _, _, h5, _⟩ := parse_hfradar_features h
    rw [h1] at hf
    rcases List.mem_append.mp hf with hf | hf
    · obtain ⟨r, hr, hfr⟩ := List.mem_map.mp hf
      exact ⟨r, (rowsInOrder_perm strLt_total
        (fun _ _ _ ha hb => strLt_trans ha hb) strLt_irrefl
        (fun r => r.Status) df).mem_iff.mp hr, hfr.symm⟩
    · have := (h5 f hf).1
      rw [this] at htype
      exact absurd htype (by decide)
  · rfl

theorem C9_witness :
    (status_colors.lookup buoyRow.Status = some "green"
      ∧ platforms_icons.lookup buoyRow.PlatformType = some "buoy")
    ∧ (station_feature buoyRow).properties.lookup "icon"
        = some (.str (icon "buoy" "green")) :=
  ⟨⟨rfl, rfl⟩, C9_icon_binding.1 buoyRow "green" "buoy" rfl rfl⟩

/-- C10: whenever the radar builder returns a collection, it holds as many
polygon features as point features — one polygon per input row, even for
rows whose wedge construction failed: position `i` of the polygon block
carries the polygon of the most recent successful wedge at or before `i`
(`lastPoly`), so a failed row repeats its predecessor's polygon rather than
omitting one. -/
theorem C10_polygon_per_row (A : ArcModel) (df : List RadarRow)
    (kw : List (String × JValue)) (fc : FeatureCollection)
    (h : parse_hfradar A df kw = .ok fc) :
    ∃ pts pls : List Feature,
      fc.features = pts ++ pls
      ∧ pts.length = df.length
      ∧ pls.length = df.length
      ∧ (∀ f ∈ pts, f.geometry.type = "Point")
      ∧ (∀ f ∈ pls, f.geometry.type = "Polygon")
      ∧ (∀ i, i < df.length →
          pls[i]? = (lastPoly A none
            (rowsInOrder strLt (fun r => r.Status) df) i).map
            (fun g => (⟨g, dictUpdate radar_defaults kw⟩ : Feature))) := by
  obtain ⟨pls, h1, h2, h3, h4, h5, _⟩ := parse_hfradar_features h
  refine ⟨_, pls, h1, ?_, h2, ?_, fun f hf => (h5 f hf).1, h4⟩
  · rw [List.length_map, h3]
  · intro f hf
    obtain ⟨r, _, hr⟩ := List.mem_map.mp hf
    rw [← hr]
    rfl

theorem C10_witness :
    parse_hfradar cArc [opRow, degRow] [] = .ok fcOpDeg
    ∧ ∃ pts pls : List Feature,
      fcOpDeg.features = pts ++ pls
      ∧ pts.length = ([opRow, degRow] : List RadarRow).length
      ∧ pls.length = ([opRow, degRow] : List RadarRow).length
      ∧ (∀ f ∈ pts, f.geometry.type = "Point")
      ∧ (∀ f ∈ pls, f.geometry.type = "Polygon")
      ∧ (∀ i, i < ([opRow, degRow] : List RadarRow).length →
          pls[i]? = (lastPoly cArc none
            (rowsInOrder strLt (fun r => r.Status) [opRow, degRow]) i).map
            (fun g => (⟨g, dictUpdate radar_defaults []⟩ : Feature))) :=
  ⟨rfl, C10_polygon_per_row cArc [opRow, degRow] [] fcOpDeg rfl⟩
